import Mathlib

/-!
Verification development for the llmjson knowledge-graph pipeline.

The development shallowly embeds three subsystems of the source:
  * `DataValidator.validate_data` and its helper stages (src/llmjson/validator.py),
  * the JSON response-recovery ladder `LLMProcessor._extract_json` together with
    the failure packaging of `LLMProcessor.process_chunk` (src/llmjson/processor.py),
  * the cross-document streaming scheduler
    `LLMProcessor.process_documents_streaming_optimized` and `batch_process`
    (src/llmjson/processor.py).

Strings are embedded as `List Char`.  Python dict records become structures with
`Option` fields (a missing key is `none`); Python truthiness of a field is
`none` or an empty value.  Record dicts in Python are mutated in place while the
validator only copies the three top-level lists, so the embedded validator
returns, besides the corrected payload and the report, the "input after
validation": the original three lists with every record replaced by its
(possibly mutated) version — this makes the sharing of record dicts observable.
The only uncaught exception reachable inside `validate_data`
(an `UnboundLocalError` on `new_prefix`) is modelled with `Except`.
-/

set_option maxHeartbeats 1000000

namespace LLMJson

abbrev Str := List Char

/-- Python truthiness of an optional string field: `None` and `""` are falsy. -/
def truthyS : Option Str → Bool
  | none => false
  | some s => !s.isEmpty

/-- Python `set.add` on a set represented as a duplicate-free list
(insertion order kept; only the cardinality is observable in the report). -/
def setAdd [DecidableEq α] (x : α) (l : List α) : List α :=
  if x ∈ l then l else l ++ [x]

/-- Python dict assignment `m[k] = v` on an insertion-ordered association list:
an existing key is overwritten in place, a new key is appended. -/
def amSet [DecidableEq α] (k : α) (v : β) : List (α × β) → List (α × β)
  | [] => [(k, v)]
  | (k', v') :: rest => if k' = k then (k, v) :: rest else (k', v') :: amSet k v rest

/-- Python dict lookup `m[k]` / `k in m`. -/
def amLookup [DecidableEq α] (k : α) : List (α × β) → Option β
  | [] => none
  | (k', v') :: rest => if k' = k then some v' else amLookup k rest

/-- Python `s.split("-")` (splits at every `'-'`, keeping empty pieces). -/
def splitDash : Str → List Str
  | [] => [[]]
  | c :: cs =>
    if c = '-' then [] :: splitDash cs
    else
      match splitDash cs with
      | [] => [[c]]
      | t :: ts => (c :: t) :: ts

/-- `"-".join(s.split("-")[-1:])`: the last `'-'`-separated component. -/
def lastComp (s : Str) : Str := (splitDash s).getLastD []

/-- Python `"-".join(l)`. -/
def joinDash : List Str → Str
  | [] => []
  | [s] => s
  | s :: rest => s ++ '-' :: joinDash rest

/-- Helper for `dedupKeepOrder`: drop elements already seen. -/
def dedupAux (seen : List Str) : List Str → List Str
  | [] => []
  | x :: xs => if x ∈ seen then dedupAux seen xs else x :: dedupAux (seen ++ [x]) xs

/-- Python `list(dict.fromkeys(l))`: deduplication keeping first occurrences. -/
def dedupKeepOrder (l : List Str) : List Str := dedupAux [] l

/-- Strict lexicographic comparison of strings by code point (Python `<`). -/
def lexLt : Str → Str → Bool
  | [], [] => false
  | [], _ :: _ => true
  | _ :: _, [] => false
  | a :: as, b :: bs => if a < b then true else if b < a then false else lexLt as bs

def lexLe (a b : Str) : Bool := !(lexLt b a)

theorem lexLt_trichotomy : ∀ a b : Str, lexLt a b = true ∨ a = b ∨ lexLt b a = true := by
  intro a
  induction a with
  | nil => intro b; cases b <;> simp [lexLt]
  | cons x xs ih =>
    intro b
    cases b with
    | nil => simp [lexLt]
    | cons y ys =>
      rcases lt_trichotomy x y with hxy | hxy | hxy
      · left; simp [lexLt, hxy]
      · subst hxy
        rcases ih ys with h | h | h
        · left; simp [lexLt, h]
        · subst h; right; left; rfl
        · right; right; simp [lexLt, h]
      · right; right; simp [lexLt, hxy]

theorem lexLt_trans :
    ∀ a b c : Str, lexLt a b = true → lexLt b c = true → lexLt a c = true := by
  intro a
  induction a with
  | nil =>
    intro b c hab hbc
    cases b with
    | nil => simp [lexLt] at hab
    | cons y ys =>
      cases c with
      | nil => simp [lexLt] at hbc
      | cons z zs => simp [lexLt]
  | cons x xs ih =>
    intro b c hab hbc
    cases b with
    | nil => simp [lexLt] at hab
    | cons y ys =>
      cases c with
      | nil => simp [lexLt] at hbc
      | cons z zs =>
        simp only [lexLt] at hab hbc ⊢
        split at hab
        · -- x < y
          rename_i hxy
          split at hbc
          · rename_i hyz
            simp [lt_trans hxy hyz]
          · split at hbc
            · exact absurd hbc (by simp)
            · rename_i hyz hzy
              have : y = z := le_antisymm (not_lt.1 hzy) (not_lt.1 hyz)
              subst this
              simp [hxy]
        · split at hab
          · exact absurd hab (by simp)
          · rename_i hxy hyx
            have hxy' : x = y := le_antisymm (not_lt.1 hyx) (not_lt.1 hxy)
            subst hxy'
            split at hbc
            · rename_i hxz; simp [hxz]
            · split at hbc
              · exact absurd hbc (by simp)
              · rename_i hxz hzx
                have : x = z := le_antisymm (not_lt.1 hzx) (not_lt.1 hxz)
                subst this
                simp only [lt_irrefl, if_neg, ite_self, if_false]
                exact ih ys zs hab hbc

theorem lexLt_irrefl : ∀ a : Str, lexLt a a = false := by
  intro a
  induction a with
  | nil => rfl
  | cons x xs ih => simp [lexLt, lt_irrefl, ih]

theorem lexLt_asymm (a b : Str) (h : lexLt a b = true) : lexLt b a = false := by
  cases hba : lexLt b a
  · rfl
  · have h2 := lexLt_trans a b a h hba
    rw [lexLt_irrefl] at h2
    exact absurd h2 (by simp)

theorem lexLe_total (a b : Str) : lexLe a b = true ∨ lexLe b a = true := by
  unfold lexLe
  cases h : lexLt b a
  · left; rfl
  · right; rw [lexLt_asymm b a h]; rfl

theorem lexLe_trans (a b c : Str) (hab : lexLe a b = true) (hbc : lexLe b c = true) :
    lexLe a c = true := by
  unfold lexLe at hab hbc ⊢
  by_contra hca
  have hca' : lexLt c a = true := by
    cases h : lexLt c a
    · rw [h] at hca; exact absurd rfl hca
    · rfl
  rcases lexLt_trichotomy c b with h | h | h
  · rw [h] at hbc; exact absurd hbc (by simp)
  · subst h
    rw [hca'] at hab; exact absurd hab (by simp)
  · have := lexLt_trans b c a h hca'
    rw [this] at hab; exact absurd hab (by simp)

/-- Python `sorted` on a list of strings: a stable sort with respect to the
lexicographic order, which is exactly `List.insertionSort` (the same stable
algorithm, hence the same output). -/
def sortStr (l : List Str) : List Str :=
  List.insertionSort (fun a b => lexLe a b = true) l

instance : IsTotal Str (fun a b => lexLe a b = true) := ⟨lexLe_total⟩

instance : IsTrans Str (fun a b => lexLe a b = true) := ⟨lexLe_trans⟩

theorem sortStr_perm (l : List Str) : List.Perm (sortStr l) l :=
  List.perm_insertionSort _ l

theorem sortStr_sorted (l : List Str) :
    List.Sorted (fun a b => lexLe a b = true) (sortStr l) :=
  List.sorted_insertionSort _ l

theorem sortStr_idem (l : List Str) : sortStr (sortStr l) = sortStr l :=
  (sortStr_sorted l).insertionSort_eq

theorem sortStr_length (l : List Str) : (sortStr l).length = l.length :=
  (sortStr_perm l).length_eq

theorem sortStr_mem {l : List Str} {x : Str} : x ∈ sortStr l ↔ x ∈ l :=
  (sortStr_perm l).mem_iff

theorem sortStr_nodup {l : List Str} (h : l.Nodup) : (sortStr l).Nodup :=
  ((sortStr_perm l).nodup_iff).2 h

theorem sortStr_singleton (x : Str) : sortStr [x] = [x] := rfl

/-- `[0-9]` (the source's patterns use the explicit ASCII class). -/
def isDigitC (c : Char) : Bool := '0' ≤ c ∧ c ≤ '9'

/-- The rigid body of `time_pattern`
`^([0-9]{4})-([0-9]{2})-([0-9]{2})至([0-9]{4})-([0-9]{2})-([0-9]{2})$`:
on a 21-character match, returns the derived `YYYYMMDD_YYYYMMDD` date part
that `_validate_state_id` / `_generate_correct_state_id` assemble from the
six groups. -/
def timeCore : Str → Option Str
  | [y1, y2, y3, y4, h1, m1, m2, h2, d1, d2, z,
     g1, g2, g3, g4, k1, n1, n2, k2, e1, e2] =>
    if isDigitC y1 ∧ isDigitC y2 ∧ isDigitC y3 ∧ isDigitC y4 ∧
       h1 = '-' ∧ isDigitC m1 ∧ isDigitC m2 ∧ h2 = '-' ∧
       isDigitC d1 ∧ isDigitC d2 ∧ z = '至' ∧
       isDigitC g1 ∧ isDigitC g2 ∧ isDigitC g3 ∧ isDigitC g4 ∧
       k1 = '-' ∧ isDigitC n1 ∧ isDigitC n2 ∧ k2 = '-' ∧
       isDigitC e1 ∧ isDigitC e2 then
      some ([y1, y2, y3, y4, m1, m2, d1, d2] ++
            '_' :: [g1, g2, g3, g4, n1, n2, e1, e2])
    else none
  | _ => none

/-- `time_pattern.match(t)` (Python `$` also matches just before one trailing
newline), returning the date part computed from the groups. -/
def matchTime (t : Str) : Option Str :=
  match timeCore t with
  | some d => some d
  | none =>
    match t.getLast? with
    | some c => if c = '\n' then timeCore t.dropLast else none
    | none => none

/-- `_correct_time_format`: replaces every `到` by `至` when present,
otherwise no correction. -/
def correctTimeFormat (t : Str) : Option Str :=
  if '到' ∈ t then some (t.map fun c => if c = '到' then '至' else c) else none

/-- The `entity_id.startswith` prefix dispatch used both by the
Joint→Independent coercion and by `_validate_state_id` /
`_generate_correct_state_id` (`E-` ↦ `ES`, `L-` ↦ `LS`, `F-` ↦ `FS`). -/
def pfxOf (eid : Str) : Option Str :=
  if List.isPrefixOf ['E', '-'] eid then some ['E', 'S']
  else if List.isPrefixOf ['L', '-'] eid then some ['L', 'S']
  else if List.isPrefixOf ['F', '-'] eid then some ['F', 'S']
  else none

/-- `f"JS-{entity_part}-{date_part}"` with `entity_part = "-".join(ids)`. -/
def mkJSId (ids : List Str) (datePart : Str) : Str :=
  'J' :: 'S' :: '-' :: (joinDash ids ++ '-' :: datePart)

/-- `f"{prefix}-{entity_id}-{date_part}"`. -/
def mkIndepId (pfx eid datePart : Str) : Str :=
  pfx ++ '-' :: (eid ++ '-' :: datePart)

/-- `DataValidator._validate_state_id` (the stored-id consistency predicate).
The source indexes `entity_ids[0]` only under the guard that the list is
non-empty; the embedding uses `headD`. -/
def validateStateId (stateId stateType : Str) (ids : List Str) (timeRange : Str) : Bool :=
  match matchTime timeRange with
  | none => false
  | some datePart =>
    if stateType = "独立状态".toList then
      match pfxOf (ids.headD []) with
      | some p => stateId = mkIndepId p (ids.headD []) datePart
      | none => false
    else if stateType = "联合状态".toList then
      stateId = mkJSId (sortStr ids) datePart
    else false

/-- `DataValidator._generate_correct_state_id`. -/
def generateCorrectStateId (stateType : Str) (ids : List Str) (timeRange : Str) :
    Option Str :=
  match matchTime timeRange with
  | none => none
  | some datePart =>
    if stateType = "独立状态".toList ∧ ids.length = 1 then
      match pfxOf (ids.headD []) with
      | some p => some (mkIndepId p (ids.headD []) datePart)
      | none => none
    else if stateType = "联合状态".toList ∧ 2 ≤ ids.length then
      some (mkJSId (sortStr ids) datePart)
    else none

/-! ### Regular expressions for base-entity ids

`DataValidator` checks base-entity ids with `bool(pattern.match(id))` for the
`event`, `location` and `facility` patterns (groups are never used).  Matching
is embedded with Brzozowski derivatives, which decide exactly the language of
the pattern.  Each source pattern is anchored `^...$`; Python's `$` also
matches just before a single trailing newline, which the embedding includes. -/

/-- Regular expressions over characters; classes are predicates. -/
inductive RE where
  | fail : RE
  | eps : RE
  | cls (p : Char → Bool) : RE
  | seq (a b : RE) : RE
  | alt (a b : RE) : RE
  | star (a : RE) : RE

namespace RE

/-- Smart sequence (simplifies away `fail`/`eps` to keep derivatives small). -/
def mkSeq : RE → RE → RE
  | fail, _ => fail
  | _, fail => fail
  | eps, b => b
  | a, eps => a
  | a, b => seq a b

/-- Smart alternation. -/
def mkAlt : RE → RE → RE
  | fail, b => b
  | a, fail => a
  | a, b => alt a b

def nullable : RE → Bool
  | fail => false
  | eps => true
  | cls _ => false
  | seq a b => nullable a && nullable b
  | alt a b => nullable a || nullable b
  | star _ => true

def deriv (c : Char) : RE → RE
  | fail => fail
  | eps => fail
  | cls p => if p c then eps else fail
  | seq a b =>
    if nullable a then mkAlt (mkSeq (deriv c a) b) (deriv c b)
    else mkSeq (deriv c a) b
  | alt a b => mkAlt (deriv c a) (deriv c b)
  | star a => mkSeq (deriv c a) (star a)

/-- Full-string membership. -/
def accepts (r : RE) (s : Str) : Bool :=
  nullable (s.foldl (fun r c => deriv c r) r)

/-- `x+`. -/
def plus (a : RE) : RE := seq a (star a)

/-- `x?`. -/
def opt (a : RE) : RE := alt eps a

/-- `x{n}`. -/
def rep (a : RE) : Nat → RE
  | 0 => eps
  | n + 1 => seq a (rep a n)

/-- A literal character. -/
def chr (c : Char) : RE := cls (fun d => d = c)

/-- A literal string. -/
def lit (s : Str) : RE := s.foldr (fun c r => seq (chr c) r) eps

end RE

/-- `[A-Za-z0-9]`. -/
def isAlnumAscii (c : Char) : Bool :=
  ('A' ≤ c ∧ c ≤ 'Z') ∨ ('a' ≤ c ∧ c ≤ 'z') ∨ ('0' ≤ c ∧ c ≤ '9')

/-- `[A-Z_]`. -/
def isUpperUnd (c : Char) : Bool := ('A' ≤ c ∧ c ≤ 'Z') ∨ c = '_'

/-- `(>[^-]+)?`, the optional sub-region suffix. -/
def subRegionRE : RE :=
  RE.opt (RE.seq (RE.chr '>') (RE.plus (RE.cls (fun c => c ≠ '-'))))

/-- Python `$`: end of string, or just before one final newline. -/
def anchorEnd (body : RE) : RE := RE.seq body (RE.opt (RE.chr '\n'))

/-- `^E-([A-Za-z0-9]+)(>[^-]+)?-([0-9]{8})-([A-Z_]+)$` (`id_patterns["event"]`). -/
def eventRE : RE :=
  anchorEnd <|
    RE.seq (RE.lit "E-".toList) <|
    RE.seq (RE.plus (RE.cls isAlnumAscii)) <|
    RE.seq subRegionRE <|
    RE.seq (RE.chr '-') <|
    RE.seq (RE.rep (RE.cls isDigitC) 8) <|
    RE.seq (RE.chr '-') (RE.plus (RE.cls isUpperUnd))

/-- `^L-([A-Za-z0-9]+)(>[^-]+)?$|^L-([A-Z_]+)-([^>]+)(>[^-]+)?$`
(`id_patterns["location"]`). -/
def locationRE : RE :=
  RE.alt
    (anchorEnd <|
      RE.seq (RE.lit "L-".toList) <|
      RE.seq (RE.plus (RE.cls isAlnumAscii)) subRegionRE)
    (anchorEnd <|
      RE.seq (RE.lit "L-".toList) <|
      RE.seq (RE.plus (RE.cls isUpperUnd)) <|
      RE.seq (RE.chr '-') <|
      RE.seq (RE.plus (RE.cls (fun c => c ≠ '>'))) subRegionRE)

/-- `^F-([A-Za-z0-9]+)(>[^-]+)?-(.+)$` (`id_patterns["facility"]`;
`.` excludes newlines, DOTALL is off). -/
def facilityRE : RE :=
  anchorEnd <|
    RE.seq (RE.lit "F-".toList) <|
    RE.seq (RE.plus (RE.cls isAlnumAscii)) <|
    RE.seq subRegionRE <|
    RE.seq (RE.chr '-') (RE.plus (RE.cls (fun c => c ≠ '\n')))

/-! ### The validator's data model -/

/-- A `基础实体` record (dict with `类型`, `唯一ID`, `地理描述`). -/
structure BaseEnt where
  kind : Option Str
  uid : Option Str
  geoDesc : Option Str
deriving DecidableEq, Repr

/-- A `状态实体` record (dict with `类型`, `状态ID`, `关联实体ID列表`, `时间`).
The `关联实体ID列表` field is embedded as a list of strings; the source's
`ast.literal_eval` fallback for a string-typed field is outside this typing. -/
structure StateEnt where
  kind : Option Str
  stateId : Option Str
  entityIds : Option (List Str)
  timeRange : Option Str
deriving DecidableEq, Repr

/-- A `状态关系` record (dict with `主体状态ID`, `关系`, `客体状态ID`, `依据`). -/
structure StateRel where
  subjectId : Option Str
  relType : Option Str
  objectId : Option Str
  basis : Option Str
deriving DecidableEq, Repr

/-- The payload: the three top-level record lists (a missing key defaults to
`[]` via `data.get(..., [])`). -/
structure Payload where
  baseEntities : List BaseEnt
  stateEntities : List StateEnt
  stateRelations : List StateRel
deriving DecidableEq, Repr

/-- Diagnostic messages.  The source stores formatted strings; the embedding
stores the constructor together with the interpolated values, which keeps the
message identity (counts, emptiness) observable without modelling `repr`. -/
inductive VMsg where
  | entityMissingFields (e : BaseEnt)
  | entityBadId (id : Str)
  | entityNoGeo (id : Str)
  | entityDupId (id : Str)
  | stateMissingFields (s : StateEnt)
  | stateBadType (t : Str)
  | timeFixed (old new : Str)
  | timeBad (t : Str)
  | dedupIds (old new : List Str)
  | jointToIndep (old new : Str)
  | indepToJoint (old new : Str)
  | invalidEntityIds (bad : List Str)
  | reorderJoint (old new : Str)
  | fixedStateId (old new : Str)
  | stateIdUnfixable (id : Option Str)
  | relMissingFields (r : StateRel)
  | relBadType (t : Str)
  | relNoBasis (r : StateRel)
  | relBadSubject (id : Option Str)
  | relBadObject (id : Option Str)
deriving DecidableEq, Repr

/-- The validation report (`self.validation_report`): the three message lists,
the per-kind `error_stats` id sets (which may contain `None`, hence
`Option Str` entries), and the counts/rates filled in by `validate_data`. -/
structure Report where
  errors_deleted : List VMsg
  warnings_modified : List VMsg
  warnings_unmodified : List VMsg
  corrections : List VMsg
  statsBase : List (Option Str)
  statsStates : List (Option Str)
  statsRels : List (Option Str)
  countBase : Nat
  countStates : Nat
  countRels : Nat
  countTotal : Nat
  rateBase : ℚ
  rateStates : ℚ
  rateRels : ℚ
  rateTotal : ℚ
  totalEntities : Nat
  totalStates : Nat
  totalRelations : Nat
deriving DecidableEq, Repr

/-- `reset_validation_report`. -/
def emptyReport : Report :=
  ⟨[], [], [], [], [], [], [], 0, 0, 0, 0, 0, 0, 0, 0, 0, 0, 0⟩

def addErr (m : VMsg) (r : Report) : Report :=
  { r with errors_deleted := r.errors_deleted ++ [m] }

def addMod (m : VMsg) (r : Report) : Report :=
  { r with warnings_modified := r.warnings_modified ++ [m] }

def addUnmod (m : VMsg) (r : Report) : Report :=
  { r with warnings_unmodified := r.warnings_unmodified ++ [m] }

def addStatB (x : Option Str) (r : Report) : Report :=
  { r with statsBase := setAdd x r.statsBase }

def addStatS (x : Option Str) (r : Report) : Report :=
  { r with statsStates := setAdd x r.statsStates }

def addStatR (x : Option Str) (r : Report) : Report :=
  { r with statsRels := setAdd x r.statsRels }

/-- `self.allowed_state_types`. -/
def allowedStateTypes : List Str := ["独立状态".toList, "联合状态".toList]

/-- `self.allowed_relations`. -/
def allowedRelations : List Str :=
  ["触发".toList, "影响".toList, "调控".toList, "导致".toList, "隐含导致".toList]

/-! ### Stage A: `_validate_base_entities` -/

/-- The id-pattern dispatch of `_validate_base_entities` (`is_valid_id`):
the pattern selected by `实体类型`, `False` for an unknown type. -/
def baseIdOK (ty id : Str) : Bool :=
  if ty = "事件".toList then eventRE.accepts id
  else if ty = "地点".toList then locationRE.accepts id
  else if ty = "设施".toList then facilityRE.accepts id
  else false

/-- One iteration of the `_validate_base_entities` loop.  The accumulator is
`(valid_entities, entity_ids, report)`. -/
def stageABody (acc : List BaseEnt × List Str × Report) (e : BaseEnt) :
    List BaseEnt × List Str × Report :=
  let (valid, seen, rep) := acc
  if ¬ truthyS e.kind ∨ ¬ truthyS e.uid then
    -- 实体缺少必要字段 (the id is registered in `error_stats` only if truthy)
    let rep := addErr (.entityMissingFields e) rep
    let rep := if truthyS e.uid then addStatB e.uid rep else rep
    (valid, seen, rep)
  else
    let ty := e.kind.getD []
    let id := e.uid.getD []
    let isValidId := baseIdOK ty id
    if ¬ isValidId then
      (valid, seen, addStatB (some id) (addErr (.entityBadId id) rep))
    else
      -- 检查地点和设施是否有地理描述 (warn, keep)
      let rep :=
        if (ty = "地点".toList ∨ ty = "设施".toList) ∧ ¬ truthyS e.geoDesc then
          addStatB (some id) (addUnmod (.entityNoGeo id) rep)
        else rep
      -- 检查ID是否重复 (warn, drop duplicates keeping the first occurrence)
      if id ∈ seen then
        (valid, seen, addStatB (some id) (addUnmod (.entityDupId id) rep))
      else
        (valid ++ [e], seen ++ [id], rep)

/-- `_validate_base_entities`. -/
def validateBaseEntities (entities : List BaseEnt) (rep : Report) :
    List BaseEnt × Report :=
  let r := entities.foldl stageABody ([], [], rep)
  (r.1, r.2.2)

/-! ### Stage B: `_validate_state_entities` -/

/-- The `UnboundLocalError` raised when the Joint→Independent coercion meets a
single entity id starting with none of `E-`, `L-`, `F-` and the loop-local
`new_prefix` has no earlier binding. -/
inductive PyErr where
  | unboundLocalNewPfx
deriving DecidableEq, Repr

/-- The running state of the `_validate_state_entities` loop:
`valid_states`, the mutated input records seen so far (`after`), the
`id_mapping` dict, the report, and the last binding of the Python-local
`new_prefix` (which persists across loop iterations). -/
structure BAcc where
  valid : List StateEnt
  after : List StateEnt
  mapping : List (Str × Str)
  rep : Report
  lastPfx : Option Str
deriving DecidableEq, Repr

/-- The per-record working state inside one `_validate_state_entities` loop
iteration: the (mutated) record, the `id_mapping` so far, the report, and the
loop-local `new_prefix` binding. -/
structure BStep where
  s : StateEnt
  mapping : List (Str × Str)
  rep : Report
  lastPfx : Option Str
deriving DecidableEq, Repr

/-- The time-format check: a matching `时间` passes; otherwise
`_correct_time_format` either rewrites the field (correction) or leaves an
unmodified warning plus an `error_stats` entry. -/
def timeStep (sid tm : Str) (st : BStep) : BStep :=
  if (matchTime tm).isSome then st
  else
    match correctTimeFormat tm with
    | some t2 =>
      { st with
        s := { st.s with timeRange := some t2 }
        rep := addMod (.timeFixed tm t2) st.rep }
    | none => { st with rep := addStatS (some sid) (addUnmod (.timeBad tm) st.rep) }

/-- 原则3: deduplicate `关联实体ID列表` preserving order (fires exactly when
the list has duplicates). -/
def dedupApply (sid : Str) (ids0 : List Str) (st : BStep) : BStep :=
  if ids0.length ≠ (dedupKeepOrder ids0).length then
    { st with
      s := { st.s with entityIds := some (dedupKeepOrder ids0) }
      rep := addStatS (some sid)
        (addMod (.dedupIds ids0 (dedupKeepOrder ids0)) st.rep) }
  else st

/-- The dedup step's resulting list. -/
def dedupStep (ids : List Str) : List Str :=
  if ids.length ≠ (dedupKeepOrder ids).length then dedupKeepOrder ids else ids

/-- Joint→Independent coercion: a 联合状态 with fewer than two ids becomes
独立状态; the new id prefix comes from `entity_ids[0].startswith`, falling
back to the stale Python-local `new_prefix` binding, or raising
`UnboundLocalError` when there is none. -/
def coerceJointToIndep (ty sid : Str) (ids1 : List Str) (st : BStep) :
    Except PyErr BStep :=
  if ty = "联合状态".toList ∧ ids1.length < 2 then
    let eid := ids1.headD []
    let pfx? : Option (Str × Option Str) :=
      match pfxOf eid with
      | some p => some (p, some p)
      | none =>
        match st.lastPfx with
        | some p => some (p, st.lastPfx)
        | none => none
    match pfx? with
    | none => .error .unboundLocalNewPfx
    | some (p, lp) =>
      let newId := mkIndepId p eid (lastComp sid)
      .ok { s := { st.s with
                   kind := some "独立状态".toList
                   stateId := some newId }
            mapping := amSet sid newId st.mapping
            rep := addStatS (some newId) (addMod (.jointToIndep sid newId) st.rep)
            lastPfx := lp }
  else .ok st

/-- Independent→Joint coercion: a 独立状态 with more than one id becomes
联合状态 with `state_id` rebuilt from the sorted ids (the stored list itself
is not sorted here). -/
def coerceIndepToJoint (ty sid : Str) (ids1 : List Str) (st : BStep) : BStep :=
  if ty = "独立状态".toList ∧ 1 < ids1.length then
    let newId := mkJSId (sortStr ids1) (lastComp sid)
    { st with
      s := { st.s with
             kind := some "联合状态".toList
             stateId := some newId }
      mapping := amSet sid newId st.mapping
      rep := addStatS (some newId) (addMod (.indepToJoint sid newId) st.rep) }
  else st

/-- 原则6: for a record whose original type is 联合状态, canonicalise the id
list to sorted order and rebuild the id (tested on the record's original type
`ty`, not the possibly coerced one). -/
def reorderJointStep (ty sid : Str) (ids1 : List Str) (st : BStep) : BStep :=
  if ty = "联合状态".toList ∧ sortStr ids1 ≠ ids1 then
    let newId := mkJSId (sortStr ids1) (lastComp sid)
    { st with
      s := { st.s with
             entityIds := some (sortStr ids1)
             stateId := some newId }
      mapping := amSet sid newId st.mapping
      rep := addMod (.reorderJoint sid newId) st.rep }
  else st

/-- 原则2: the stored-id consistency check, with `_generate_correct_state_id`
as the repair. -/
def consistencyStep (sid : Str) (st : BStep) : BStep :=
  if validateStateId (st.s.stateId.getD []) (st.s.kind.getD [])
      ((st.s.entityIds).getD []) (st.s.timeRange.getD []) then st
  else
    match generateCorrectStateId (st.s.kind.getD []) ((st.s.entityIds).getD [])
        (st.s.timeRange.getD []) with
    | some c =>
      { st with
        s := { st.s with stateId := some c }
        mapping := amSet sid c st.mapping
        rep := addStatS (some c) (addMod (.fixedStateId sid c) st.rep) }
    | none =>
      { st with rep := addStatS (some sid) (addUnmod (.stateIdUnfixable (some sid)) st.rep) }

/-- One iteration of the `_validate_state_entities` loop over one record. -/
def processState (baseIds : List Str) (acc : BAcc) (s0 : StateEnt) :
    Except PyErr BAcc :=
  match s0.kind, s0.stateId, s0.timeRange with
  | some ty, some sid, some tm =>
    let ids0 := (s0.entityIds).getD []
    -- 检查必要字段
    if ty.isEmpty ∨ sid.isEmpty ∨ ids0.isEmpty ∨ tm.isEmpty then
      .ok { acc with
            after := acc.after ++ [s0]
            rep := addStatS s0.stateId (addErr (.stateMissingFields s0) acc.rep) }
    -- 检查状态类型
    else if ty ∉ allowedStateTypes then
      .ok { acc with
            after := acc.after ++ [s0]
            rep := addStatS (some sid) (addErr (.stateBadType ty) acc.rep) }
    else
      let st1 := timeStep sid tm ⟨s0, acc.mapping, acc.rep, acc.lastPfx⟩
      let st2 := dedupApply sid ids0 st1
      let ids1 := dedupStep ids0
      match coerceJointToIndep ty sid ids1 st2 with
      | .error e => .error e
      | .ok st3 =>
        let st4 := coerceIndepToJoint ty sid ids1 st3
        -- 检查关联实体是否存在 (drop, no error_stats entry)
        let bad := ids1.filter (fun x => x ∉ baseIds)
        if ¬ bad.isEmpty then
          .ok { valid := acc.valid, after := acc.after ++ [st4.s],
                mapping := st4.mapping,
                rep := addErr (.invalidEntityIds bad) st4.rep,
                lastPfx := st4.lastPfx }
        else
          let st5 := reorderJointStep ty sid ids1 st4
          let st6 := consistencyStep sid st5
          .ok { valid := acc.valid ++ [st6.s], after := acc.after ++ [st6.s],
                mapping := st6.mapping, rep := st6.rep, lastPfx := st6.lastPfx }
  | _, _, _ =>
    -- a missing 类型/状态ID/时间 key fails the same `not ...` guard
    .ok { acc with
          after := acc.after ++ [s0]
          rep := addStatS s0.stateId (addErr (.stateMissingFields s0) acc.rep) }

/-- The per-relation body of `_update_state_relation_references`: rename
`主体状态ID`, then `客体状态ID`, through `id_mapping`. -/
def updateRef (mapping : List (Str × Str)) (r : StateRel) : StateRel :=
  let r1 :=
    match r.subjectId with
    | some sId =>
      match amLookup sId mapping with
      | some nw => { r with subjectId := some nw }
      | none => r
    | none => r
  match r1.objectId with
  | some oId =>
    match amLookup oId mapping with
    | some nw => { r1 with objectId := some nw }
    | none => r1
  | none => r1

/-- `_update_state_relation_references` (mutates the relation records). -/
def updateRefs (mapping : List (Str × Str)) (rels : List StateRel) : List StateRel :=
  rels.map (updateRef mapping)

/-- The fold of `processState` over the record list. -/
def stageBFold (baseIds : List Str) (acc : BAcc) : List StateEnt → Except PyErr BAcc
  | [] => .ok acc
  | s :: ss =>
    match processState baseIds acc s with
    | .error e => .error e
    | .ok acc' => stageBFold baseIds acc' ss

/-- `_validate_state_entities`: returns
`(valid_states, mutated input records, id_mapping, updated relations, report)`. -/
def validateStateEntities (states : List StateEnt) (baseEntities : List BaseEnt)
    (relations : List StateRel) (rep : Report) :
    Except PyErr (List StateEnt × List StateEnt × List (Str × Str) ×
                  List StateRel × Report) :=
  let baseIds := baseEntities.map (fun e => e.uid.getD [])
  match stageBFold baseIds ⟨[], [], [], rep, none⟩ states with
  | .error e => .error e
  | .ok acc =>
    -- 原则4：更新所有状态关系中的ID引用
    let rels := if ¬ acc.mapping.isEmpty then updateRefs acc.mapping relations
                else relations
    .ok (acc.valid, acc.after, acc.mapping, rels, acc.rep)

/-! ### Stage C: `_validate_state_relations` -/

/-- One iteration of the `_validate_state_relations` loop. -/
def stageCBody (stateIds : List (Option Str)) (acc : List StateRel × Report)
    (r : StateRel) : List StateRel × Report :=
  let (valid, rep) := acc
  if ¬ truthyS r.subjectId ∨ ¬ truthyS r.relType ∨ ¬ truthyS r.objectId then
    let rep := addErr (.relMissingFields r) rep
    let rep := if truthyS r.subjectId then addStatR r.subjectId rep else rep
    let rep := if truthyS r.objectId then addStatR r.objectId rep else rep
    (valid, rep)
  else
    let rep :=
      if r.relType.getD [] ∉ allowedRelations then
        addStatR r.objectId (addStatR r.subjectId
          (addUnmod (.relBadType (r.relType.getD [])) rep))
      else rep
    let rep :=
      if ¬ truthyS r.basis then
        addStatR r.objectId (addStatR r.subjectId (addUnmod (.relNoBasis r) rep))
      else rep
    -- 原则5：检查引用的状态ID是否存在
    if r.subjectId ∉ stateIds then
      (valid, addStatR r.subjectId (addErr (.relBadSubject r.subjectId) rep))
    else if r.objectId ∉ stateIds then
      (valid, addStatR r.objectId (addErr (.relBadObject r.objectId) rep))
    else
      (valid ++ [r], rep)

/-- `_validate_state_relations`. -/
def validateStateRelations (relations : List StateRel) (states : List StateEnt)
    (rep : Report) : List StateRel × Report :=
  let stateIds := states.map (fun s => s.stateId)
  relations.foldl (stageCBody stateIds) ([], rep)

/-! ### `validate_data` -/

/-- `dropped / original_count if original_count > 0 else 0.0`. -/
def mkRate (dropped total : Nat) : ℚ :=
  if 0 < total then (dropped : ℚ) / (total : ℚ) else 0

/-- `DataValidator.validate_data`.  Returns
`(corrected payload, input payload after validation, report)`; `.error` is the
uncaught `UnboundLocalError` of the Joint→Independent coercion.  The "input
payload after validation" has the same three top-level lists as the input (only
the list objects were copied) with each record replaced by its mutated self. -/
def validateData (data : Payload) : Except PyErr (Payload × Payload × Report) :=
  let (validBase, rep1) := validateBaseEntities data.baseEntities emptyReport
  match validateStateEntities data.stateEntities validBase data.stateRelations rep1 with
  | .error e => .error e
  | .ok (validStates, afterStates, _mapping, rels1, rep2) =>
    let (validRels, rep3) := validateStateRelations rels1 validStates rep2
    let nB := data.baseEntities.length
    let nS := data.stateEntities.length
    let nR := data.stateRelations.length
    let eB := rep3.statsBase.length
    let eS := rep3.statsStates.length
    let eR := rep3.statsRels.length
    let rep4 : Report :=
      { rep3 with
        countBase := eB, countStates := eS, countRels := eR,
        countTotal := eB + eS + eR,
        rateBase := mkRate eB nB, rateStates := mkRate eS nS,
        rateRels := mkRate eR nR,
        rateTotal := mkRate (eB + eS + eR) (nB + nS + nR),
        totalEntities := nB, totalStates := nS, totalRelations := nR }
    .ok (⟨validBase, validStates, validRels⟩,
         ⟨data.baseEntities, afterStates, rels1⟩, rep4)

/-- `get_validation_summary` (the condensed summary). -/
structure Summary where
  error_count : Nat
  warning_count : Nat
  correction_count : Nat
  error_rate : ℚ
  success_rate : ℚ
  base_entity_errors : Nat
  state_entity_errors : Nat
  state_relation_errors : Nat
  total_items_processed : Nat
deriving DecidableEq, Repr

/-- `DataValidator.get_validation_summary` computed from the report. -/
def getValidationSummary (r : Report) : Summary :=
  ⟨r.countTotal, r.warnings_unmodified.length, r.warnings_modified.length,
   r.rateTotal, 1 - r.rateTotal, r.countBase, r.countStates, r.countRels,
   r.totalEntities + r.totalStates + r.totalRelations⟩

/-- A mapping whose every lookup returns its own key (all recorded renames are
identities). -/
def IdMap (m : List (Str × Str)) : Prop :=
  ∀ k v, amLookup k m = some v → v = k

/-- The invariant of a record kept into `valid_states` by
`_validate_state_entities` (relative to Stage A's surviving id set). -/
structure KeptInv (baseIds : List Str) (s : StateEnt) : Prop where
  kind_cases : s.kind = some "独立状态".toList ∨ s.kind = some "联合状态".toList
  sid_some : ∃ x, s.stateId = some x ∧ x ≠ []
  ids_some : ∃ l, s.entityIds = some l ∧ l ≠ []
  ids_nodup : ((s.entityIds).getD []).Nodup
  ids_sub : ∀ x ∈ (s.entityIds).getD [], x ∈ baseIds
  time_some : ∃ t, s.timeRange = some t ∧ t ≠ []
  time_ok : (matchTime ((s.timeRange).getD [])).isSome = true ∨
    '到' ∉ (s.timeRange).getD []
  card_indep : s.kind = some "独立状态".toList →
    ((s.entityIds).getD []).length = 1
  card_joint : s.kind = some "联合状态".toList →
    2 ≤ ((s.entityIds).getD []).length
  canon_joint : s.kind = some "联合状态".toList → ∀ d,
    matchTime ((s.timeRange).getD []) = some d →
    s.stateId = some (mkJSId (sortStr ((s.entityIds).getD [])) d)
  canon_indep : s.kind = some "独立状态".toList → ∀ d px,
    matchTime ((s.timeRange).getD []) = some d →
    pfxOf (((s.entityIds).getD []).headD []) = some px →
    s.stateId = some (mkIndepId px (((s.entityIds).getD []).headD []) d)
  joint_shape : s.kind = some "联合状态".toList →
    sortStr ((s.entityIds).getD []) = (s.entityIds).getD [] ∨
    ∃ X, '-' ∉ X ∧
      s.stateId = some (mkJSId (sortStr ((s.entityIds).getD [])) X)

/-! ### Response recovery (`LLMProcessor._extract_json` and the failure
packaging of `process_chunk`)

The payload parser `json.loads` and the third-party `json_repair.repair_json`
are external to the scheduler's own code: on a string input they either return
a value or raise an exception that `_extract_json` catches, so they are
modelled as total function parameters `loads : Str → Option J` and
`repair : Str → Str`.  Everything else mirrors the source. -/

/-- ASCII whitespace for `\s` / `strip()`. -/
def wsC (c : Char) : Bool :=
  c = ' ' ∨ c = '\t' ∨ c = '\n' ∨ c = '\r' ∨ c = Char.ofNat 11 ∨ c = Char.ofNat 12

/-- A backtick. -/
def tickC : Char := Char.ofNat 96

/-- An opening curly brace. -/
def lbraceC : Char := Char.ofNat 123

/-- A closing curly brace. -/
def rbraceC : Char := Char.ofNat 125

def stripL (s : Str) : Str := s.dropWhile wsC

def stripR (s : Str) : Str := (s.reverse.dropWhile wsC).reverse

/-- Python `str.strip()`. -/
def strip (s : Str) : Str := stripR (stripL s)

/-- The lazy part of the fence pattern: scan for the earliest closing
delimiter that is followed by `\s*` and three backticks; returns the body
(including that delimiter) and the remaining text after the closing fence. -/
def lazyClose (cl : Char) (accRev : Str) : Str → Option (Str × Str)
  | [] => none
  | d :: ds =>
    if d = cl ∧ List.isPrefixOf [tickC, tickC, tickC] (ds.dropWhile wsC) then
      some (accRev.reverse ++ [d], (ds.dropWhile wsC).drop 3)
    else lazyClose cl (d :: accRev) ds

/-- Try to match ```` ```(?:json)?\s*(<opn>.*?<cl>)\s*``` ```` (DOTALL, lazy
group) at the very start of `s`; on success returns the group and the text
after the whole match.  (Not consuming a present `json` tag can never make the
rest match, since `\s*` then `<opn>` cannot accept the letter `j`.) -/
def fencedAt (opn cl : Char) (s : Str) : Option (Str × Str) :=
  match s with
  | t1 :: t2 :: t3 :: rest =>
    if t1 = tickC ∧ t2 = tickC ∧ t3 = tickC then
      let rest1 := if List.isPrefixOf "json".toList rest then rest.drop 4 else rest
      match rest1.dropWhile wsC with
      | c :: tail =>
        if c = opn then
          match lazyClose cl [] tail with
          | some (body, after) => some (c :: body, after)
          | none => none
        else none
      | [] => none
    else none
  | _ => none

/-- `re.findall` for the fence pattern: leftmost non-overlapping matches,
resuming after each match (fuel is the text length, which bounds the number
of scan positions). -/
def findFencedAux (opn cl : Char) : Nat → Str → List Str
  | 0, _ => []
  | _ + 1, [] => []
  | n + 1, c :: cs =>
    match fencedAt opn cl (c :: cs) with
    | some (g, rest) => g :: findFencedAux opn cl n rest
    | none => findFencedAux opn cl n cs

def findFenced (opn cl : Char) (s : Str) : List Str := findFencedAux opn cl s.length s

/-- `_extract_balanced_braces`: one pass tracking brace depth (the counter can
go negative, hence `Int`); a maximal depth-zero span longer than 10 characters
is captured. -/
def balancedAux (orig : Str) : Str → Nat → Int → Option Nat → List Str → List Str
  | [], _, _, _, accOut => accOut
  | c :: cs, i, depth, start, accOut =>
    if c = lbraceC then
      balancedAux orig cs (i + 1) (depth + 1)
        (if depth = 0 then some i else start) accOut
    else if c = rbraceC then
      let depth' := depth - 1
      match start with
      | some st =>
        if depth' = 0 then
          let cand := (orig.drop st).take (i + 1 - st)
          balancedAux orig cs (i + 1) depth' none
            (accOut ++ if 10 < cand.length then [cand] else [])
        else balancedAux orig cs (i + 1) depth' start accOut
      | none => balancedAux orig cs (i + 1) depth' start accOut
    else balancedAux orig cs (i + 1) depth start accOut

def extractBalancedBraces (text : Str) : List Str := balancedAux text text 0 0 none []

/-- Python `s.find(c)`. -/
def idxOfC (c : Char) (s : Str) : Option Nat := s.findIdx? (fun d => d = c)

/-- Python `s.rfind(c)`. -/
def lastIdxOfC (c : Char) (s : Str) : Option Nat :=
  match idxOfC c s.reverse with
  | some j => some (s.length - 1 - j)
  | none => none

def countC (c : Char) (s : Str) : Nat := (s.filter (fun d => d = c)).length

/-- The sort key `(len(x), x.count('{'), x.count('}'))`. -/
def candKey (x : Str) : Nat × Nat × Nat := (x.length, countC lbraceC x, countC rbraceC x)

/-- Stable-descending comparison on the candidate key (`reverse=True`). -/
def candGe (x y : Str) : Bool :=
  let a := candKey x
  let b := candKey y
  decide (b.1 < a.1 ∨ (a.1 = b.1 ∧ (b.2.1 < a.2.1 ∨ (a.2.1 = b.2.1 ∧ b.2.2 ≤ a.2.2))))

/-- `_find_json_candidates`. -/
def findJsonCandidates (text : Str) : List Str :=
  let cands := extractBalancedBraces text
  let cands :=
    match idxOfC lbraceC text, lastIdxOfC rbraceC text with
    | some f, some l =>
      if f < l then
        let full := (text.drop f).take (l + 1 - f)
        if full ∈ cands then cands else cands ++ [full]
      else cands
    | _, _ => cands
  let cands :=
    match idxOfC '[' text, lastIdxOfC ']' text with
    | some f, some l =>
      if f < l then
        let arr := (text.drop f).take (l + 1 - f)
        if arr ∈ cands then cands else cands ++ [arr]
      else cands
    | _, _ => cands
  (List.insertionSort (fun x y => candGe x y = true) cands).take 10

/-- Python `s.rstrip(',')`. -/
def rstripCommas (s : Str) : Str := (s.reverse.dropWhile (fun c => c = ',')).reverse

/-- `_preprocess_for_repair`. -/
def preprocessForRepair (content : Str) : Str :=
  let content := strip content
  let content :=
    if ¬ content.headD ' ' = lbraceC ∧ ¬ content.headD ' ' = '[' then
      match idxOfC lbraceC content, idxOfC '[' content with
      | some fb, some fk => content.drop (min fb fk)
      | some fb, none => content.drop fb
      | none, some fk => content.drop fk
      | none, none => content
    else content
  if ¬ content.getLastD ' ' = rbraceC ∧ ¬ content.getLastD ' ' = ']' then
    if content.headD ' ' = lbraceC then
      let missing : Int := (countC lbraceC content : Int) - (countC rbraceC content : Int)
      if 0 < missing then
        if (stripR content).getLastD ' ' = '"' ∨ (stripR content).getLastD ' ' = ',' then
          rstripCommas (stripR content) ++ [rbraceC]
        else content ++ List.replicate missing.toNat rbraceC
      else content
    else if content.headD ' ' = '[' then
      let missing : Int := (countC '[' content : Int) - (countC ']' content : Int)
      if 0 < missing then content ++ List.replicate missing.toNat ']'
      else content
    else content
  else content

/-- `_validate_json_structure`: logs which expected top-level fields are
present or absent but returns its argument unchanged on every path. -/
def validateJsonStructure (j : J) : J := j

/-- Try `loads` on each candidate, first success wins. -/
def tryLoadsList (loads : Str → Option J) : List Str → Option J
  | [] => none
  | c :: cs =>
    match loads c with
    | some r => some r
    | none => tryLoadsList loads cs

/-- `LLMProcessor._extract_json`: the four-strategy recovery ladder. -/
def extractJson (loads : Str → Option J) (repair : Str → Str) (response : Str) :
    Option J :=
  if response.isEmpty then none
  else
    match loads response with
    | some r => some (validateJsonStructure r)
    | none =>
      let fenced := findFenced lbraceC rbraceC response ++ findFenced '[' ']' response
      match tryLoadsList loads fenced with
      | some r => some (validateJsonStructure r)
      | none =>
        let cands := findJsonCandidates response
        match tryLoadsList loads cands with
        | some r => some (validateJsonStructure r)
        | none =>
          let attempts := (response :: cands).filter (fun c => ¬ (strip c).isEmpty)
          match tryLoadsList (fun c => loads (repair (preprocessForRepair c))) attempts with
          | some r => some (validateJsonStructure r)
          | none => none

/-- The outcome `process_chunk` builds from `_extract_json`'s result: either
the structured payload, or the tagged failure details carrying
`raw_response = response[:1000] if response else None` and
`raw_response_length`. -/
inductive RecoverOut (J : Type) where
  | payload (j : J)
  | failure (preview : Option Str) (rawLen : Nat)
deriving DecidableEq, Repr

/-- The recovery contract: `_extract_json` plus `process_chunk`'s packaging of
a `None` result into the tagged failure record. -/
def recover (loads : Str → Option J) (repair : Str → Str) (response : Str) :
    RecoverOut J :=
  match extractJson loads repair response with
  | some j => .payload j
  | none =>
    .failure (if response.isEmpty then none else some (response.take 1000))
      response.length

/-! ### The cross-document streaming scheduler
(`process_documents_streaming_optimized`)

The opaque per-chunk function (`process_chunk`: external service call plus
recovery plus validation) is a parameter `f` which may fail (`Except`); wall
clock fields (`processing_time`) are not modelled.  Batch dispatch is a
parameter `batchFn` so that a failure raised inside the scheduler's own batch
step can be expressed; the honest instantiation is `mkBatchFn f`, the
embedding of `batch_process`.  Laziness is not modelled: the generator's whole
emission sequence is computed as a list, in yield order. -/

/-- The bookkeeping dict attached to each result
(`success/error/doc_name/chunk_index/global_index/doc_path`). -/
structure RInfo where
  success : Bool
  error : Option Str
  doc_name : Option Str
  chunk_index : Option Nat
  global_index : Option Nat
  doc_path : Option Str
deriving DecidableEq, Repr

/-- A batch result `(json_data | None, info)`. -/
abbrev BRes (α : Type) := Option α × RInfo

/-- `_process_chunk_with_metadata`: run the opaque per-chunk function and add
document/chunk/global metadata; an exception raised by it becomes a failed
result for this chunk only. -/
def processChunkMeta (f : Str → Str → Except Str (Option α × RInfo))
    (g : Nat) (dn : Str) (ci : Nat) (ch : Str) : BRes α :=
  match f ch dn with
  | .ok (j, info) =>
    (j, { info with doc_name := some dn, chunk_index := some ci, global_index := some g })
  | .error e => (none, ⟨false, some e, some dn, some ci, some g, none⟩)

def batchGo (f : Str → Str → Except Str (Option α × RInfo)) :
    Nat → List (Str × Nat × Str) → List (BRes α)
  | _, [] => []
  | g, (dn, ci, ch) :: rest => processChunkMeta f g dn ci ch :: batchGo f (g + 1) rest

/-- `batch_process` on `(doc_name, chunk_index, chunk)` items: the serial and
parallel paths both leave `results[global_index] = _process_chunk_with_metadata
(global_index, ...)`, so they are embedded as one order-preserving map. -/
def batchProcessModel (f : Str → Str → Except Str (Option α × RInfo))
    (items : List (Str × Nat × Str)) : List (BRes α) :=
  batchGo f 0 items

deriving instance DecidableEq for Except

/-- A document given to the scheduler: its path, its `os.path.basename`
(taken as data; path handling is outside the core), and the outcome of the
chunking collaborator (`Except` = the chunking step raised). -/
structure DocSpec where
  path : Str
  name : Str
  chunking : Except Str (List Str)
deriving DecidableEq, Repr

/-- Items produced by the source's `chunk_generator`. -/
inductive SItem where
  | chunk (path name : Str) (idx : Nat) (content : Str)
  | docEnd (path name : Str) (err : Option Str)
deriving DecidableEq, Repr

def listMapIdx (f : Nat → α → β) : Nat → List α → List β
  | _, [] => []
  | i, x :: xs => f i x :: listMapIdx f (i + 1) xs

/-- The generator items of one document: its chunks in order then an
end-of-document marker; a chunking failure yields a single error marker. -/
def segItems (d : DocSpec) : List SItem :=
  match d.chunking with
  | .ok cs =>
    listMapIdx (fun i c => SItem.chunk d.path d.name i c) 0 cs ++
      [SItem.docEnd d.path d.name none]
  | .error e => [SItem.docEnd d.path d.name (some ("文档处理失败: ".toList ++ e))]

/-- The whole `chunk_generator` output. -/
def chunkStream (docs : List DocSpec) : List SItem := (docs.map segItems).flatten

/-- One `pending_docs` entry: recorded chunk results keyed by chunk index
(insertion order) and the completion flag. -/
structure PendEntry (α : Type) where
  results : List (Nat × BRes α)
  complete : Bool
deriving DecidableEq, Repr

/-- `pending_docs`: an insertion-ordered dict keyed by `doc_path`. -/
abbrev PendMap (α : Type) := List (Str × PendEntry α)

def pmHas (pth : Str) (m : PendMap α) : Bool := m.any (fun e => e.1 = pth)

def pmSetComplete (pth : Str) : PendMap α → PendMap α
  | [] => []
  | (q, e) :: rest =>
    if q = pth then (q, { e with complete := true }) :: rest
    else (q, e) :: pmSetComplete pth rest

def pmEnsure (pth : Str) (m : PendMap α) : PendMap α :=
  if pmHas pth m then m else m ++ [(pth, ⟨[], false⟩)]

/-- `pending_docs[path]['chunk_results'][idx] = r` (the scheduler records only
paths it has ensured during refill, so the missing-key case cannot occur in
`schedLoop`; it is a no-op here). -/
def pmRecord (pth : Str) (idx : Nat) (r : BRes α) : PendMap α → PendMap α
  | [] => []
  | (q, e) :: rest =>
    if q = pth then (q, { e with results := amSet idx r e.results }) :: rest
    else (q, e) :: pmRecord pth idx r rest

/-- An entry of the chunk buffer. -/
structure ChunkInfo where
  path : Str
  name : Str
  idx : Nat
  content : Str
deriving DecidableEq, Repr

/-- The failed-document result `(None, {'success': False, 'error': e,
'doc_path': p})`. -/
def mkDocErrorRes (pth : Str) (e : Str) : BRes α :=
  (none, ⟨false, some e, none, none, none, some pth⟩)

/-- The outcome of one buffer refill: error-document emissions yielded during
the refill, the filled buffer, the updated `pending_docs`, and the remaining
stream. -/
structure RefillOut (α : Type) where
  ems : List (Str × List (BRes α))
  buffer : List ChunkInfo
  pend : PendMap α
  rest : List SItem
deriving Repr

/-- The refill loop: pull items until the buffer reaches `bs` or the stream
ends; error markers are yielded immediately, normal markers set the completion
flag, chunks enter the buffer (creating their `pending_docs` entry).  (The
source checks `len(buffer) < batch_size` before pulling; on an exhausted
stream both orders return the same state, so the stream is matched first.) -/
def refill (bs : Nat) : List SItem → List ChunkInfo → PendMap α →
    List (Str × List (BRes α)) → RefillOut α
  | [], buf, pend, ems => ⟨ems, buf, pend, []⟩
  | item :: rest, buf, pend, ems =>
    if bs ≤ buf.length then ⟨ems, buf, pend, item :: rest⟩
    else
      match item with
      | SItem.docEnd p _ none => refill bs rest buf (pmSetComplete p pend) ems
      | SItem.docEnd p _ (some e) =>
        refill bs rest buf pend (ems ++ [(p, [mkDocErrorRes p e])])
      | SItem.chunk p n i c =>
        refill bs rest (buf ++ [⟨p, n, i, c⟩]) (pmEnsure p pend) ems

/-- Does an entry emit (`is_complete` and at least one recorded result)? -/
def entryEmits (e : PendEntry α) : Bool := e.complete ∧ ¬ e.results.isEmpty

/-- `sorted_results = [chunk_results[i] for i in sorted(chunk_results.keys())]`
(keys are distinct, so sorting the pairs by key and projecting agrees). -/
def sortedResults (e : PendEntry α) : List (BRes α) :=
  (List.insertionSort (fun a b => a.1 ≤ b.1) e.results).map Prod.snd

/-- The emission sweep at the end of a loop iteration: every complete document
with at least one recorded result is yielded (in `pending_docs` order) and
removed. -/
def sweep (pend : PendMap α) : List (Str × List (BRes α)) × PendMap α :=
  (((pend.filter (fun pe => entryEmits pe.2)).map fun pe => (pe.1, sortedResults pe.2)),
   pend.filter (fun pe => ¬ entryEmits pe.2))

def recordAll : PendMap α → List (ChunkInfo × BRes α) → PendMap α
  | pend, [] => pend
  | pend, (ci, r) :: rest => recordAll (pmRecord ci.path ci.idx r pend) rest

/-- `f"批处理过程中发生错误: {str(e)}"`. -/
def crashMsg (e : Str) : Str := "批处理过程中发生错误: ".toList ++ e

/-- `str(IndexError(...))` for a too-short batch result list. -/
def idxErr : Str := "list index out of range".toList

/-- Length accounting for `refill` (used for termination and the proofs):
buffer growth plus the remaining stream never exceeds the consumed stream. -/
theorem refill_len (bs : Nat) :
    ∀ (stream : List SItem) (buf : List ChunkInfo) (pend : PendMap α)
      (ems : List (Str × List (BRes α))),
      (refill bs stream buf pend ems).buffer.length +
        (refill bs stream buf pend ems).rest.length ≤
      stream.length + buf.length := by
  intro stream
  induction stream with
  | nil => intro buf pend ems; simp [refill]
  | cons it rest ih =>
    intro buf pend ems
    cases it with
    | docEnd p n err =>
      cases err with
      | none =>
        rw [refill]
        split
        · simp [Nat.add_comm]
        · have h1 := ih buf (pmSetComplete p pend) ems
          simp only [List.length_cons]
          omega
      | some e =>
        rw [refill]
        split
        · simp [Nat.add_comm]
        · have h1 := ih buf pend (ems ++ [(p, [mkDocErrorRes p e])])
          simp only [List.length_cons]
          omega
    | chunk p n i c =>
      rw [refill]
      split
      · simp [Nat.add_comm]
      · have h1 := ih (buf ++ [⟨p, n, i, c⟩]) (pmEnsure p pend) ems
        simp at h1 ⊢
        omega

/-- With an initially empty buffer, a non-empty refill result means strict
stream progress. -/
theorem refill_progress (bs : Nat) (stream : List SItem) (pend : PendMap α)
    (h : ¬ (refill bs stream [] pend []).buffer.isEmpty) :
    (refill bs stream [] pend []).rest.length < stream.length := by
  have hlen := refill_len (α := α) bs stream [] pend []
  simp only [List.length_nil, Nat.add_zero] at hlen
  have : 0 < (refill bs stream [] pend ([] : List (Str × List (BRes α)))).buffer.length := by
    cases hb : (refill bs stream [] pend ([] : List (Str × List (BRes α)))).buffer with
    | nil => rw [hb] at h; simp at h
    | cons x xs => simp [hb]
  omega

/-- One iteration of the scheduler's `while True:` body, with explicit fuel
(the loop strictly shortens the stream, so `stream.length + 1` units of fuel
always suffice; kept structural so concrete runs evaluate).  Includes the
top-level `except` that converts a batch failure into failed-document results
for every pending document. -/
def schedLoopF (batchFn : List (Str × Nat × Str) → Except Str (List (BRes α)))
    (bs : Nat) : Nat → List SItem → PendMap α → List (Str × List (BRes α))
  | 0, _, _ => []
  | fuel + 1, stream, pend =>
    let ro := refill bs stream [] pend []
    if ro.buffer.isEmpty then ro.ems
    else
      match batchFn (ro.buffer.map fun ci => (ci.name, ci.idx, ci.content)) with
      | .error e =>
        ro.ems ++ ro.pend.map fun pe => (pe.1, [mkDocErrorRes pe.1 (crashMsg e)])
      | .ok results =>
        let pend2 := recordAll ro.pend (ro.buffer.zip results)
        if results.length < ro.buffer.length then
          -- `batch_results[i]` raised IndexError after recording a prefix
          ro.ems ++ pend2.map fun pe => (pe.1, [mkDocErrorRes pe.1 (crashMsg idxErr)])
        else
          let (ems2, pend3) := sweep pend2
          ro.ems ++ ems2 ++ schedLoopF batchFn bs fuel ro.rest pend3

/-- The scheduler's main loop. -/
def schedLoop (batchFn : List (Str × Nat × Str) → Except Str (List (BRes α)))
    (bs : Nat) (stream : List SItem) (pend : PendMap α) :
    List (Str × List (BRes α)) :=
  schedLoopF batchFn bs (stream.length + 1) stream pend

/-- `process_documents_streaming_optimized`: the full emission sequence. -/
def streamingGen (docs : List DocSpec)
    (batchFn : List (Str × Nat × Str) → Except Str (List (BRes α)))
    (bs : Nat) : List (Str × List (BRes α)) :=
  schedLoop batchFn bs (chunkStream docs) []

/-- The honest batch dispatch: `batch_process` never raises. -/
def mkBatchFn (f : Str → Str → Except Str (Option α × RInfo)) :
    List (Str × Nat × Str) → Except Str (List (BRes α)) :=
  fun items => .ok (batchProcessModel f items)

/-- `batch_size = max(self.max_workers * 2, 8)` when not supplied. -/
def defaultBatchSize (workers : Nat) : Nat := max (workers * 2) 8

/-- The bookkeeping invariant of `pending_docs`: per entry, the recorded
chunk-result keys are distinct and each recorded result carries its own chunk
index in its metadata. -/
def PendOK (pend : PendMap α) : Prop :=
  ∀ pe ∈ pend, ((pe.2.results.map Prod.fst).Nodup ∧
    ∀ ir ∈ pe.2.results, ir.2.2.chunk_index = some ir.1)

instance {β : Type} : IsTotal (Nat × β) (fun a b => a.1 ≤ b.1) :=
  ⟨fun a b => Nat.le_total a.1 b.1⟩

instance {β : Type} : IsTrans (Nat × β) (fun a b => a.1 ≤ b.1) :=
  ⟨fun _ _ _ => Nat.le_trans⟩

/-! ### Concrete payloads and accessors used by the claim theorems -/

/-- A `地点` base-entity record. -/
def mkLoc (idv : String) (geo : Option String) : BaseEnt :=
  ⟨some "地点".toList, some idv.toList, geo.map String.toList⟩

/-- A state-entity record from string literals. -/
def mkSt (ty sid : String) (ids : List String) (tm : String) : StateEnt :=
  ⟨some ty.toList, some sid.toList, some (ids.map String.toList), some tm.toList⟩

/-- A state-relation record from string literals. -/
def mkRl (su rt ob bs : String) : StateRel :=
  ⟨some su.toList, some rt.toList, some ob.toList, some bs.toList⟩

/-- A payload whose single Joint state has one associated id with an unknown
prefix: the coercion's `new_prefix` is never assigned. -/
def pCrash : Payload :=
  ⟨[], [mkSt "联合状态" "JS-X1-20230101_20230102" ["X1"] "2023-01-01至2023-01-02"], []⟩

/-- Two valid locations and one Independent state with two (unsorted)
associated ids: the validator coerces it to Joint, rebuilding `state_id` from
the sorted ids but leaving `entity_ids` in its original order. -/
def pCoerce : Payload :=
  ⟨[mkLoc "L-A" (some "g"), mkLoc "L-B" (some "g")],
   [mkSt "独立状态" "X-20230101_20230102" ["L-B", "L-A"] "2023-01-01至2023-01-02"],
   []⟩

/-- A state record that is coerced (Independent with two ids, recording an id
mapping) and then dropped because its ids reference no surviving base entity,
plus a relation naming its original id. -/
def pDropMap : Payload :=
  ⟨[],
   [mkSt "独立状态" "S1" ["E-110000-20230101-FLOOD", "E-999999-20230102-FLOOD"]
      "2023-01-01至2023-01-02"],
   [mkRl "S1" "触发" "S1" "b"]⟩

/-- One valid location without `地理描述`: kept with a warning, but its id
enters `error_stats`. -/
def pGeoWarn : Payload := ⟨[mkLoc "L-A" none], [], []⟩

/-- A payload whose single state record gets all four in-place corrections
(time separator, entity-id deduplication, kind coercion with new state id,
state-id canonicalisation), plus a relation that is renamed accordingly. -/
def pMutate : Payload :=
  ⟨[mkLoc "L-A" (some "g"), mkLoc "L-B" (some "g")],
   [mkSt "独立状态" "S0" ["L-A", "L-A", "L-B"] "2023-01-01到2023-01-02"],
   [mkRl "S0" "触发" "S0" "b"]⟩

/-- The corrected payload of a successful validation (junk on the error path). -/
def outOf (p : Payload) : Payload :=
  match validateData p with
  | .ok (o, _, _) => o
  | .error _ => ⟨[], [], []⟩

/-- The input payload as left behind by a successful validation. -/
def iaOf (p : Payload) : Payload :=
  match validateData p with
  | .ok (_, ia, _) => ia
  | .error _ => ⟨[], [], []⟩

/-- The report of a successful validation. -/
def repOf (p : Payload) : Option Report :=
  match validateData p with
  | .ok (_, _, r) => some r
  | .error _ => none

/-- The report of re-running `validate` on its own corrected output. -/
def rerunRep (p : Payload) : Option Report :=
  match validateData p with
  | .ok (o, _, _) => repOf o
  | .error _ => none

/-- A per-chunk function that always succeeds (used to exercise the scheduler
on concrete documents). -/
def fTriv : Str → Str → Except Str (Option Unit × RInfo) :=
  fun _ _ => .ok (some (), ⟨true, none, none, none, none, none⟩)

/-- A document with exactly one chunk. -/
def docOneChunk : DocSpec := ⟨"d1".toList, "d1".toList, .ok ["c0".toList]⟩

/-- An empty stage-B accumulator. -/
def bacc0 : BAcc := ⟨[], [], [], emptyReport, none⟩

/-- An Independent state whose single associated id exists in no base-entity
set: dropped at the existence check without any coercion. -/
def sNoEnt : StateEnt :=
  mkSt "独立状态" "S9" ["E-110000-20230101-FLOOD"] "2023-01-01至2023-01-02"

/-! ### Stage C referential integrity (C5) -/

/-- Relations kept by the stage-C fold either were already in the accumulator
or passed both endpoint membership checks. -/
theorem stageC_mem (ids : List (Option Str)) :
    ∀ (rels : List StateRel) (acc : List StateRel × Report) (r : StateRel),
      r ∈ (rels.foldl (stageCBody ids) acc).1 →
      r ∈ acc.1 ∨ (r.subjectId ∈ ids ∧ r.objectId ∈ ids) := by
  intro rels
  induction rels with
  | nil => intro acc r hr; exact .inl hr
  | cons hd tl ih =>
    intro acc r hr
    rw [List.foldl_cons] at hr
    rcases ih _ r hr with h | h
    · obtain ⟨va, re⟩ := acc
      unfold stageCBody at h
      dsimp only at h
      split at h
      · exact .inl h
      · split at h
        · exact .inl h
        · split at h
          · exact .inl h
          · rcases List.mem_append.1 h with h' | h'
            · exact .inl h'
            · rename_i hsub hobj
              rcases List.mem_singleton.1 h' with rfl
              exact .inr ⟨not_not.1 hsub, not_not.1 hobj⟩
    · exact .inr h

/-! ### String and dedup lemmas -/

theorem splitDash_ne_nil : ∀ s : Str, splitDash s ≠ [] := by
  intro s
  cases s with
  | nil => simp [splitDash]
  | cons c cs =>
    unfold splitDash
    split
    · simp
    · cases h : splitDash cs <;> simp

theorem splitDash_no_dash : ∀ s : Str, ∀ t ∈ splitDash s, '-' ∉ t := by
  intro s
  induction s with
  | nil => intro t ht; simp [splitDash] at ht; simp [ht]
  | cons c cs ih =>
    intro t ht
    unfold splitDash at ht
    split at ht
    · rcases List.mem_cons.1 ht with rfl | h
      · simp
      · exact ih t h
    · rename_i hc
      cases hsp : splitDash cs with
      | nil => exact absurd hsp (splitDash_ne_nil cs)
      | cons u us =>
        rw [hsp] at ht
        rcases List.mem_cons.1 ht with rfl | h
        · intro hmem
          rcases List.mem_cons.1 hmem with h' | h'
          · exact hc h'.symm
          · exact ih u (hsp ▸ List.mem_cons_self u us) h'
        · exact ih t (hsp ▸ List.mem_cons.2 (.inr h))

theorem getLastD_prop {P : Str → Prop} :
    ∀ (l : List Str) (d : Str), (∀ t ∈ l, P t) → P d → P (l.getLastD d) := by
  intro l
  induction l with
  | nil => intro d _ hd; exact hd
  | cons a as ih =>
    intro d hl _
    rw [List.getLastD_cons]
    exact ih a (fun t ht => hl t (List.mem_cons.2 (.inr ht)))
      (hl a (List.mem_cons_self a as))

theorem lastComp_no_dash (s : Str) : '-' ∉ lastComp s := by
  unfold lastComp
  exact getLastD_prop (splitDash s) [] (splitDash_no_dash s) (by simp)

theorem isDigitC_ne_dash {c : Char} (h : isDigitC c = true) : c ≠ '-' := by
  intro heq
  subst heq
  exact absurd h (by decide)

theorem timeCore_dash_free {t d : Str} (h : timeCore t = some d) : '-' ∉ d := by
  unfold timeCore at h
  split at h
  · split at h
    · rename_i hcond
      obtain ⟨hy1, hy2, hy3, hy4, hh1, hm1, hm2, hh2, hd1, hd2, hz,
        hg1, hg2, hg3, hg4, hk1, hn1, hn2, hk2, he1, he2⟩ := hcond
      cases Option.some.inj h
      intro hmem
      simp only [List.mem_append, List.mem_cons, List.not_mem_nil, or_false] at hmem
      rcases hmem with (h' | h' | h' | h' | h' | h' | h' | h') |
        (h' | h' | h' | h' | h' | h' | h' | h' | h') <;>
        first
        | exact isDigitC_ne_dash (by assumption) h'.symm
        | exact absurd h' (by decide)
    · exact absurd h (by simp)
  · exact absurd h (by simp)

theorem matchTime_dash_free {t d : Str} (h : matchTime t = some d) : '-' ∉ d := by
  unfold matchTime at h
  split at h
  · rename_i h'; cases Option.some.inj h; exact timeCore_dash_free h'
  · split at h
    · split at h
      · exact timeCore_dash_free h
      · exact absurd h (by simp)
    · exact absurd h (by simp)

theorem dedupAux_sub : ∀ (l seen : List Str), ∀ x ∈ dedupAux seen l, x ∈ l ∧ x ∉ seen := by
  intro l
  induction l with
  | nil => intro seen x hx; simp [dedupAux] at hx
  | cons a as ih =>
    intro seen x hx
    unfold dedupAux at hx
    split at hx
    · obtain ⟨h1, h2⟩ := ih seen x hx
      exact ⟨List.mem_cons.2 (.inr h1), h2⟩
    · rcases List.mem_cons.1 hx with rfl | h
      · exact ⟨List.mem_cons_self _ _, by assumption⟩
      · obtain ⟨h1, h2⟩ := ih (seen ++ [a]) x h
        refine ⟨List.mem_cons.2 (.inr h1), fun hs => h2 ?_⟩
        exact List.mem_append.2 (.inl hs)

theorem dedupAux_nodup : ∀ (l seen : List Str), (dedupAux seen l).Nodup := by
  intro l
  induction l with
  | nil => intro seen; simp [dedupAux]
  | cons a as ih =>
    intro seen
    unfold dedupAux
    split
    · exact ih seen
    · refine List.nodup_cons.2 ⟨fun hmem => ?_, ih (seen ++ [a])⟩
      have := (dedupAux_sub as (seen ++ [a]) a hmem).2
      exact this (List.mem_append.2 (.inr (List.mem_singleton.2 rfl)))

theorem dedupAux_eq_self :
    ∀ (l seen : List Str), l.Nodup → (∀ x ∈ l, x ∉ seen) → dedupAux seen l = l := by
  intro l
  induction l with
  | nil => intro seen _ _; rfl
  | cons a as ih =>
    intro seen hnd hdisj
    unfold dedupAux
    rw [if_neg (hdisj a (List.mem_cons_self a as))]
    congr 1
    refine ih (seen ++ [a]) (List.nodup_cons.1 hnd).2 fun x hx hmem => ?_
    rcases List.mem_append.1 hmem with h | h
    · exact hdisj x (List.mem_cons.2 (.inr hx)) h
    · rcases List.mem_singleton.1 h with rfl
      exact (List.nodup_cons.1 hnd).1 hx

theorem dedupAux_len_le : ∀ (l seen : List Str), (dedupAux seen l).length ≤ l.length := by
  intro l
  induction l with
  | nil => intro seen; simp [dedupAux]
  | cons a as ih =>
    intro seen
    unfold dedupAux
    split
    · exact Nat.le_trans (ih seen) (Nat.le_succ _)
    · simpa using ih (seen ++ [a])

theorem dedupAux_len_lt :
    ∀ (l seen : List Str), (¬l.Nodup ∨ ∃ x ∈ l, x ∈ seen) →
      (dedupAux seen l).length < l.length := by
  intro l
  induction l with
  | nil =>
    intro seen h
    rcases h with h | ⟨x, hx, -⟩
    · exact absurd List.nodup_nil h
    · simp at hx
  | cons a as ih =>
    intro seen h
    unfold dedupAux
    split
    · exact Nat.lt_succ_of_le (dedupAux_len_le as seen)
    · rename_i ha
      simp only [List.length_cons, Nat.add_lt_add_iff_right]
      apply ih
      rcases h with h | ⟨x, hx, hseen⟩
      · rw [List.nodup_cons] at h
        push_neg at h
        by_cases hmem : a ∈ as
        · exact .inr ⟨a, hmem, List.mem_append.2 (.inr (by simp))⟩
        · exact .inl (h hmem)
      · rcases List.mem_cons.1 hx with rfl | hx'
        · exact absurd hseen ha
        · exact .inr ⟨x, hx', List.mem_append.2 (.inl hseen)⟩

theorem dedupKeepOrder_eq_of_nodup {ids : List Str} (h : ids.Nodup) :
    dedupKeepOrder ids = ids :=
  dedupAux_eq_self ids [] h (by simp)

theorem dedupStep_eq_of_nodup {ids : List Str} (h : ids.Nodup) : dedupStep ids = ids := by
  unfold dedupStep
  rw [dedupKeepOrder_eq_of_nodup h]
  simp

theorem dedupStep_nodup (ids : List Str) : (dedupStep ids).Nodup := by
  by_cases h : ids.Nodup
  · rw [dedupStep_eq_of_nodup h]; exact h
  · have hlt := dedupAux_len_lt ids [] (.inl h)
    have hne : ids.length ≠ (dedupKeepOrder ids).length := by
      unfold dedupKeepOrder; omega
    unfold dedupStep
    rw [if_pos hne]
    exact dedupAux_nodup ids []

theorem dedupStep_sub {ids : List Str} {x : Str} (h : x ∈ dedupStep ids) : x ∈ ids := by
  unfold dedupStep at h
  split at h
  · exact (dedupAux_sub ids [] x h).1
  · exact h

theorem dedupStep_ne_nil {ids : List Str} (h : ¬ ids.isEmpty) : ¬ (dedupStep ids).isEmpty := by
  intro habs
  cases ids with
  | nil => simp at h
  | cons a as =>
    unfold dedupStep at habs
    split at habs
    · unfold dedupKeepOrder dedupAux at habs
      rw [if_neg (by simp)] at habs
      simp at habs
    · simp at habs

/-! ### Phase lemmas for `processState` -/

theorem timeStep_mapping (sid tm : Str) (st : BStep) :
    (timeStep sid tm st).mapping = st.mapping := by
  unfold timeStep; split
  · rfl
  · split <;> rfl

theorem timeStep_lastPfx (sid tm : Str) (st : BStep) :
    (timeStep sid tm st).lastPfx = st.lastPfx := by
  unfold timeStep; split
  · rfl
  · split <;> rfl

theorem dedupApply_mapping (sid : Str) (ids0 : List Str) (st : BStep) :
    (dedupApply sid ids0 st).mapping = st.mapping := by
  unfold dedupApply; split <;> rfl

theorem dedupApply_lastPfx (sid : Str) (ids0 : List Str) (st : BStep) :
    (dedupApply sid ids0 st).lastPfx = st.lastPfx := by
  unfold dedupApply; split <;> rfl

theorem coerceJointToIndep_nofire (ty sid : Str) (ids1 : List Str) (st : BStep)
    (h : ¬(ty = "联合状态".toList ∧ ids1.length < 2)) :
    coerceJointToIndep ty sid ids1 st = .ok st := by
  unfold coerceJointToIndep; rw [if_neg h]

theorem coerceIndepToJoint_nofire (ty sid : Str) (ids1 : List Str) (st : BStep)
    (h : ¬(ty = "独立状态".toList ∧ 1 < ids1.length)) :
    coerceIndepToJoint ty sid ids1 st = st := by
  unfold coerceIndepToJoint; rw [if_neg h]

theorem reorderJointStep_nofire (ty sid : Str) (ids1 : List Str) (st : BStep)
    (h : ¬(ty = "联合状态".toList ∧ sortStr ids1 ≠ ids1)) :
    reorderJointStep ty sid ids1 st = st := by
  unfold reorderJointStep; rw [if_neg h]

theorem timeStep_s_kind (sid tm : Str) (st : BStep) :
    (timeStep sid tm st).s.kind = st.s.kind := by
  unfold timeStep; split
  · rfl
  · split <;> rfl

theorem timeStep_s_stateId (sid tm : Str) (st : BStep) :
    (timeStep sid tm st).s.stateId = st.s.stateId := by
  unfold timeStep; split
  · rfl
  · split <;> rfl

theorem timeStep_s_entityIds (sid tm : Str) (st : BStep) :
    (timeStep sid tm st).s.entityIds = st.s.entityIds := by
  unfold timeStep; split
  · rfl
  · split <;> rfl

theorem timeStep_time_spec (sid tm : Str) (st : BStep)
    (hst : st.s.timeRange = some tm) (hne : ¬ tm.isEmpty) :
    ∃ t', (timeStep sid tm st).s.timeRange = some t' ∧ ¬ t'.isEmpty ∧
      ((matchTime t').isSome ∨ '到' ∉ t') := by
  unfold timeStep
  split
  · exact ⟨tm, hst, hne, .inl (by assumption)⟩
  · split
    · rename_i t2 hfix
      unfold correctTimeFormat at hfix
      split at hfix
      · cases Option.some.inj hfix
        refine ⟨_, rfl, ?_, .inr ?_⟩
        · cases tm <;> simp_all
        · intro hmem
          obtain ⟨c, -, hc⟩ := List.mem_map.1 hmem
          split at hc
          · exact absurd hc (by decide)
          · rename_i hc'; exact hc' hc
      · exact absurd hfix (by simp)
    · rename_i hfix
      unfold correctTimeFormat at hfix
      refine ⟨tm, hst, hne, .inr ?_⟩
      split at hfix
      · exact absurd hfix (by simp)
      · assumption

theorem timeStep_no_change (sid tm : Str) (st : BStep)
    (h : (matchTime tm).isSome ∨ '到' ∉ tm) :
    (timeStep sid tm st).s = st.s ∧
    (timeStep sid tm st).rep.errors_deleted = st.rep.errors_deleted ∧
    (timeStep sid tm st).rep.warnings_modified = st.rep.warnings_modified ∧
    (timeStep sid tm st).mapping = st.mapping ∧
    (timeStep sid tm st).lastPfx = st.lastPfx := by
  unfold timeStep
  rcases h with h | h
  · rw [if_pos h]; exact ⟨rfl, rfl, rfl, rfl, rfl⟩
  · split
    · exact ⟨rfl, rfl, rfl, rfl, rfl⟩
    · have : correctTimeFormat tm = none := by unfold correctTimeFormat; rw [if_neg h]
      rw [this]
      exact ⟨rfl, rfl, rfl, rfl, rfl⟩

theorem dedupApply_s_kind (sid : Str) (ids0 : List Str) (st : BStep) :
    (dedupApply sid ids0 st).s.kind = st.s.kind := by
  unfold dedupApply; split <;> rfl

theorem dedupApply_s_stateId (sid : Str) (ids0 : List Str) (st : BStep) :
    (dedupApply sid ids0 st).s.stateId = st.s.stateId := by
  unfold dedupApply; split <;> rfl

theorem dedupApply_s_timeRange (sid : Str) (ids0 : List Str) (st : BStep) :
    (dedupApply sid ids0 st).s.timeRange = st.s.timeRange := by
  unfold dedupApply; split <;> rfl

theorem dedupApply_s_entityIds (sid : Str) (ids0 : List Str) (st : BStep)
    (hst : st.s.entityIds = some ids0) :
    (dedupApply sid ids0 st).s.entityIds = some (dedupStep ids0) := by
  unfold dedupApply dedupStep
  split
  · rfl
  · exact hst

theorem dedupApply_no_change (sid : Str) (ids0 : List Str) (st : BStep)
    (h : ids0.Nodup) :
    dedupApply sid ids0 st = st := by
  unfold dedupApply
  rw [if_neg (by rw [dedupKeepOrder_eq_of_nodup h]; simp)]

theorem coerceJointToIndep_ok (ty sid : Str) (ids1 : List Str) (st st3 : BStep)
    (h : coerceJointToIndep ty sid ids1 st = .ok st3) :
    (¬(ty = "联合状态".toList ∧ ids1.length < 2) ∧ st3 = st) ∨
    ((ty = "联合状态".toList ∧ ids1.length < 2) ∧ ∃ p,
      st3.s.kind = some "独立状态".toList ∧
      st3.s.stateId = some (mkIndepId p (ids1.headD []) (lastComp sid)) ∧
      st3.s.entityIds = st.s.entityIds ∧ st3.s.timeRange = st.s.timeRange) := by
  unfold coerceJointToIndep at h
  split at h
  · rename_i hc
    right
    refine ⟨hc, ?_⟩
    dsimp only at h
    split at h
    · exact absurd h (by simp)
    · rename_i p lp heq
      cases Except.ok.inj h
      exact ⟨p, rfl, rfl, rfl, rfl⟩
  · rename_i hc
    exact .inl ⟨hc, (Except.ok.inj h).symm⟩

theorem coerceIndepToJoint_fire (ty sid : Str) (ids1 : List Str) (st : BStep)
    (h : ty = "独立状态".toList ∧ 1 < ids1.length) :
    (coerceIndepToJoint ty sid ids1 st).s.kind = some "联合状态".toList ∧
    (coerceIndepToJoint ty sid ids1 st).s.stateId =
      some (mkJSId (sortStr ids1) (lastComp sid)) ∧
    (coerceIndepToJoint ty sid ids1 st).s.entityIds = st.s.entityIds ∧
    (coerceIndepToJoint ty sid ids1 st).s.timeRange = st.s.timeRange := by
  unfold coerceIndepToJoint; rw [if_pos h]
  exact ⟨rfl, rfl, rfl, rfl⟩

theorem reorderJointStep_fire (ty sid : Str) (ids1 : List Str) (st : BStep)
    (h : ty = "联合状态".toList ∧ sortStr ids1 ≠ ids1) :
    (reorderJointStep ty sid ids1 st).s.kind = st.s.kind ∧
    (reorderJointStep ty sid ids1 st).s.stateId =
      some (mkJSId (sortStr ids1) (lastComp sid)) ∧
    (reorderJointStep ty sid ids1 st).s.entityIds = some (sortStr ids1) ∧
    (reorderJointStep ty sid ids1 st).s.timeRange = st.s.timeRange := by
  unfold reorderJointStep; rw [if_pos h]
  exact ⟨rfl, rfl, rfl, rfl⟩

theorem consistencyStep_s_kind (sid : Str) (st : BStep) :
    (consistencyStep sid st).s.kind = st.s.kind := by
  unfold consistencyStep; split
  · rfl
  · split <;> rfl

theorem consistencyStep_s_entityIds (sid : Str) (st : BStep) :
    (consistencyStep sid st).s.entityIds = st.s.entityIds := by
  unfold consistencyStep; split
  · rfl
  · split <;> rfl

theorem consistencyStep_s_timeRange (sid : Str) (st : BStep) :
    (consistencyStep sid st).s.timeRange = st.s.timeRange := by
  unfold consistencyStep; split
  · rfl
  · split <;> rfl

theorem mkIndepId_ne_nil (p e d : Str) : mkIndepId p e d ≠ [] := by
  unfold mkIndepId
  simp

theorem mkJSId_ne_nil (ids : List Str) (d : Str) : mkJSId ids d ≠ [] := by
  unfold mkJSId
  simp

theorem generate_ne_nil {ty : Str} {ids : List Str} {t c : Str}
    (h : generateCorrectStateId ty ids t = some c) : c ≠ [] := by
  unfold generateCorrectStateId at h
  split at h
  · exact absurd h (by simp)
  · split at h
    · split at h
      · cases Option.some.inj h; exact mkIndepId_ne_nil _ _ _
      · exact absurd h (by simp)
    · split at h
      · cases Option.some.inj h; exact mkJSId_ne_nil _ _
      · exact absurd h (by simp)

theorem consistencyStep_sid_some (sid : Str) (st : BStep)
    (hpre : ∃ x, st.s.stateId = some x ∧ x ≠ []) :
    ∃ x, (consistencyStep sid st).s.stateId = some x ∧ x ≠ [] := by
  unfold consistencyStep
  split
  · exact hpre
  · split
    · rename_i c hgen
      exact ⟨c, rfl, generate_ne_nil hgen⟩
    · exact hpre

theorem validateStateId_joint_iff (sid : Str) (ids : List Str) (t d : Str)
    (hd : matchTime t = some d) :
    validateStateId sid "联合状态".toList ids t = true ↔
      sid = mkJSId (sortStr ids) d := by
  unfold validateStateId
  rw [hd]
  show (if "联合状态".toList = "独立状态".toList then
      match pfxOf (ids.headD []) with
      | some p => decide (sid = mkIndepId p (ids.headD []) d)
      | none => false
    else if "联合状态".toList = "联合状态".toList then
      decide (sid = mkJSId (sortStr ids) d)
    else false) = true ↔ sid = mkJSId (sortStr ids) d
  rw [if_neg (show ("联合状态".toList : Str) ≠ "独立状态".toList by decide),
    if_pos rfl]
  exact ⟨of_decide_eq_true, decide_eq_true⟩

theorem validateStateId_indep_iff (sid : Str) (ids : List Str) (t d px : Str)
    (hd : matchTime t = some d) (hpx : pfxOf (ids.headD []) = some px) :
    validateStateId sid "独立状态".toList ids t = true ↔
      sid = mkIndepId px (ids.headD []) d := by
  unfold validateStateId
  rw [hd]
  show (if "独立状态".toList = "独立状态".toList then
      match pfxOf (ids.headD []) with
      | some p => decide (sid = mkIndepId p (ids.headD []) d)
      | none => false
    else if "独立状态".toList = "联合状态".toList then
      decide (sid = mkJSId (sortStr ids) d)
    else false) = true ↔ sid = mkIndepId px (ids.headD []) d
  rw [if_pos rfl, hpx]
  exact ⟨of_decide_eq_true, decide_eq_true⟩

theorem generate_joint (ids : List Str) (t d : Str) (hlen : 2 ≤ ids.length)
    (hd : matchTime t = some d) :
    generateCorrectStateId "联合状态".toList ids t =
      some (mkJSId (sortStr ids) d) := by
  unfold generateCorrectStateId
  rw [hd]
  show (if "联合状态".toList = "独立状态".toList ∧ ids.length = 1 then
      match pfxOf (ids.headD []) with
      | some p => some (mkIndepId p (ids.headD []) d)
      | none => none
    else if "联合状态".toList = "联合状态".toList ∧ 2 ≤ ids.length then
      some (mkJSId (sortStr ids) d)
    else none) = some (mkJSId (sortStr ids) d)
  rw [if_neg (show ¬("联合状态".toList = "独立状态".toList ∧ ids.length = 1) from
      fun hand => absurd hand.1 (by decide)),
    if_pos ⟨rfl, hlen⟩]

theorem generate_indep (ids : List Str) (t d px : Str) (hlen : ids.length = 1)
    (hd : matchTime t = some d) (hpx : pfxOf (ids.headD []) = some px) :
    generateCorrectStateId "独立状态".toList ids t =
      some (mkIndepId px (ids.headD []) d) := by
  unfold generateCorrectStateId
  rw [hd]
  show (if "独立状态".toList = "独立状态".toList ∧ ids.length = 1 then
      match pfxOf (ids.headD []) with
      | some p => some (mkIndepId p (ids.headD []) d)
      | none => none
    else if "独立状态".toList = "联合状态".toList ∧ 2 ≤ ids.length then
      some (mkJSId (sortStr ids) d)
    else none) = some (mkIndepId px (ids.headD []) d)
  rw [if_pos ⟨rfl, hlen⟩, hpx]

theorem generate_joint_inv (ids : List Str) (t c : Str)
    (h : generateCorrectStateId "联合状态".toList ids t = some c) :
    ∃ d, matchTime t = some d ∧ c = mkJSId (sortStr ids) d := by
  unfold generateCorrectStateId at h
  obtain hmt | ⟨d, hmt⟩ : matchTime t = none ∨ ∃ d, matchTime t = some d := by
    cases matchTime t
    · exact .inl rfl
    · exact .inr ⟨_, rfl⟩
  · rw [hmt] at h
    exact absurd h (by simp)
  · rw [hmt] at h
    replace h : (if "联合状态".toList = "独立状态".toList ∧ ids.length = 1 then
        match pfxOf (ids.headD []) with
        | some p => some (mkIndepId p (ids.headD []) d)
        | none => none
      else if "联合状态".toList = "联合状态".toList ∧ 2 ≤ ids.length then
        some (mkJSId (sortStr ids) d)
      else none) = some c := h
    rw [if_neg (show ¬("联合状态".toList = "独立状态".toList ∧ ids.length = 1) from
      fun hand => absurd hand.1 (by decide))] at h
    split at h
    · exact ⟨d, hmt, (Option.some.inj h).symm⟩
    · exact absurd h (by simp)

theorem consistencyStep_canon_joint (sid : Str) (st : BStep)
    (hk : st.s.kind = some "联合状态".toList)
    (hlen : 2 ≤ ((st.s.entityIds).getD []).length) :
    ∀ d, matchTime ((st.s.timeRange).getD []) = some d →
      (consistencyStep sid st).s.stateId =
        some (mkJSId (sortStr ((st.s.entityIds).getD [])) d) := by
  intro d hd
  unfold consistencyStep
  rw [hk, Option.getD_some]
  split
  · rename_i hval
    have heq := (validateStateId_joint_iff _ _ _ d hd).mp hval
    cases hsid : st.s.stateId with
    | none =>
      rw [hsid] at heq
      exact absurd heq.symm (mkJSId_ne_nil _ _)
    | some x =>
      rw [hsid, Option.getD_some] at heq
      exact congrArg some heq
  · rename_i hval
    rw [generate_joint _ _ d hlen hd]

theorem consistencyStep_canon_indep (sid : Str) (st : BStep)
    (hk : st.s.kind = some "独立状态".toList)
    (hlen : ((st.s.entityIds).getD []).length = 1) :
    ∀ d px, matchTime ((st.s.timeRange).getD []) = some d →
      pfxOf (((st.s.entityIds).getD []).headD []) = some px →
      (consistencyStep sid st).s.stateId =
        some (mkIndepId px (((st.s.entityIds).getD []).headD []) d) := by
  intro d px hd hpx
  unfold consistencyStep
  rw [hk, Option.getD_some]
  split
  · rename_i hval
    have heq := (validateStateId_indep_iff _ _ _ d px hd hpx).mp hval
    cases hsid : st.s.stateId with
    | none =>
      rw [hsid] at heq
      exact absurd heq.symm (mkIndepId_ne_nil _ _ _)
    | some x =>
      rw [hsid, Option.getD_some] at heq
      exact congrArg some heq

  · rename_i hval
    rw [generate_indep _ _ d px hlen hd hpx]

theorem consistencyStep_jointShape (sid : Str) (st : BStep)
    (hk : st.s.kind = some "联合状态".toList)
    (hpre : sortStr ((st.s.entityIds).getD []) = (st.s.entityIds).getD [] ∨
      ∃ X, '-' ∉ X ∧
        st.s.stateId = some (mkJSId (sortStr ((st.s.entityIds).getD [])) X)) :
    sortStr ((st.s.entityIds).getD []) = (st.s.entityIds).getD [] ∨
      ∃ X, '-' ∉ X ∧ (consistencyStep sid st).s.stateId =
        some (mkJSId (sortStr ((st.s.entityIds).getD [])) X) := by
  rcases hpre with hpre | ⟨X, hX, hid⟩
  · exact .inl hpre
  · right
    unfold consistencyStep
    rw [hk, Option.getD_some]
    split
    · exact ⟨X, hX, hid⟩
    · split
      · rename_i c hgen
        obtain ⟨d, hmt, hc⟩ := generate_joint_inv _ _ _ hgen
        cases hc
        exact ⟨d, fun hm => absurd hm (matchTime_dash_free hmt), rfl⟩
      · exact ⟨X, hX, hid⟩

theorem getLastD_of_ne_nil {l : List Str} (h : l ≠ []) (d d' : Str) :
    l.getLastD d = l.getLastD d' := by
  cases l with
  | nil => exact absurd rfl h
  | cons x xs => rw [List.getLastD_cons, List.getLastD_cons]

theorem getLastD_append (l₁ l₂ : List Str) (h : l₂ ≠ []) :
    ∀ d, (l₁ ++ l₂).getLastD d = l₂.getLastD d := by
  induction l₁ with
  | nil => intro d; rfl
  | cons x l ih =>
    intro d
    rw [List.cons_append, List.getLastD_cons, ih x]
    exact getLastD_of_ne_nil h x d

theorem splitDash_append (a X : Str) :
    splitDash (a ++ '-' :: X) = splitDash a ++ splitDash X := by
  induction a with
  | nil => rfl
  | cons c a ih =>
    show splitDash (c :: (a ++ '-' :: X)) = splitDash (c :: a) ++ splitDash X
    simp only [splitDash]
    rw [ih]
    split
    · rfl
    · cases hsa : splitDash a with
      | nil => exact absurd hsa (splitDash_ne_nil a)
      | cons t ts => rfl

theorem splitDash_of_no_dash (X : Str) (hX : '-' ∉ X) : splitDash X = [X] := by
  induction X with
  | nil => rfl
  | cons c cs ih =>
    have hc : ¬ c = '-' := by
      intro h
      subst h
      exact hX (List.mem_cons_self _ _)
    have hcs : '-' ∉ cs := fun h => hX (List.mem_cons_of_mem _ h)
    simp only [splitDash]
    rw [if_neg hc, ih hcs]

theorem lastComp_append_dashfree (a X : Str) (hX : '-' ∉ X) :
    lastComp (a ++ '-' :: X) = X := by
  unfold lastComp
  rw [splitDash_append, splitDash_of_no_dash X hX,
    getLastD_append _ _ (by simp)]
  rfl

theorem lastComp_mkJSId (ids : List Str) (X : Str) (hX : '-' ∉ X) :
    lastComp (mkJSId ids X) = X := by
  have hshape : mkJSId ids X = ('J' :: 'S' :: '-' :: joinDash ids) ++ '-' :: X := by
    unfold mkJSId
    simp
  rw [hshape, lastComp_append_dashfree _ _ hX]

theorem lastComp_mkIndepId (p e X : Str) (hX : '-' ∉ X) :
    lastComp (mkIndepId p e X) = X := by
  have hshape : mkIndepId p e X = (p ++ '-' :: e) ++ '-' :: X := by
    unfold mkIndepId
    simp
  rw [hshape, lastComp_append_dashfree _ _ hX]

theorem coerceJointToIndep_no_fire (ty sid : Str) (ids1 : List Str) (st : BStep)
    (h : ¬(ty = "联合状态".toList ∧ ids1.length < 2)) :
    coerceJointToIndep ty sid ids1 st = .ok st := by
  unfold coerceJointToIndep
  rw [if_neg h]

theorem coerceIndepToJoint_no_fire (ty sid : Str) (ids1 : List Str) (st : BStep)
    (h : ¬(ty = "独立状态".toList ∧ 1 < ids1.length)) :
    coerceIndepToJoint ty sid ids1 st = st := by
  unfold coerceIndepToJoint
  rw [if_neg h]

theorem reorderJointStep_no_fire (ty sid : Str) (ids1 : List Str) (st : BStep)
    (h : ¬(ty = "联合状态".toList ∧ sortStr ids1 ≠ ids1)) :
    reorderJointStep ty sid ids1 st = st := by
  unfold reorderJointStep
  rw [if_neg h]

theorem consistencyStep_valid_eq (sid : Str) (st : BStep)
    (h : validateStateId (st.s.stateId.getD []) (st.s.kind.getD [])
      ((st.s.entityIds).getD []) (st.s.timeRange.getD []) = true) :
    consistencyStep sid st = st := by
  unfold consistencyStep
  rw [if_pos h]

theorem consistencyStep_unfix (sid : Str) (st : BStep)
    (h1 : ¬ validateStateId (st.s.stateId.getD []) (st.s.kind.getD [])
      ((st.s.entityIds).getD []) (st.s.timeRange.getD []) = true)
    (h2 : generateCorrectStateId (st.s.kind.getD []) ((st.s.entityIds).getD [])
      (st.s.timeRange.getD []) = none) :
    consistencyStep sid st =
      { st with rep := addStatS (some sid) (addUnmod (.stateIdUnfixable (some sid)) st.rep) } := by
  unfold consistencyStep
  rw [if_neg h1, h2]

theorem validateStateId_time_none (a b : Str) (ids : List Str) (t : Str)
    (h : matchTime t = none) : validateStateId a b ids t = false := by
  unfold validateStateId
  rw [h]

theorem generate_time_none (ty : Str) (ids : List Str) (t : Str)
    (h : matchTime t = none) : generateCorrectStateId ty ids t = none := by
  unfold generateCorrectStateId
  rw [h]

theorem generate_indep_pfx_none (ids : List Str) (t : Str)
    (hlen : ids.length = 1) (hpx : pfxOf (ids.headD []) = none) :
    generateCorrectStateId "独立状态".toList ids t = none := by
  unfold generateCorrectStateId
  cases hmt : matchTime t with
  | none => rfl
  | some d =>
    show (if "独立状态".toList = "独立状态".toList ∧ ids.length = 1 then
        match pfxOf (ids.headD []) with
        | some p => some (mkIndepId p (ids.headD []) d)
        | none => none
      else if "独立状态".toList = "联合状态".toList ∧ 2 ≤ ids.length then
        some (mkJSId (sortStr ids) d)
      else none) = none
    rw [if_pos ⟨rfl, hlen⟩, hpx]

theorem amLookup_amSet_self (k : Str) (v : Str) (m : List (Str × Str)) :
    amLookup k (amSet k v m) = some v := by
  induction m with
  | nil =>
    show amLookup k [(k, v)] = some v
    unfold amLookup
    rw [if_pos rfl]
  | cons p rest ih =>
    obtain ⟨k0, v0⟩ := p
    unfold amSet
    by_cases h0 : k0 = k
    · rw [if_pos h0]
      show amLookup k ((k, v) :: rest) = some v
      unfold amLookup
      rw [if_pos rfl]
    · rw [if_neg h0]
      show amLookup k ((k0, v0) :: amSet k v rest) = some v
      unfold amLookup
      rw [if_neg h0]
      exact ih

theorem amLookup_amSet_other (k v k' : Str) (m : List (Str × Str))
    (h : k' ≠ k) : amLookup k' (amSet k v m) = amLookup k' m := by
  induction m with
  | nil =>
    show amLookup k' [(k, v)] = amLookup k' []
    unfold amLookup
    rw [if_neg (fun he => h he.symm)]
    rfl
  | cons p rest ih =>
    obtain ⟨k0, v0⟩ := p
    unfold amSet
    by_cases h0 : k0 = k
    · subst h0
      rw [if_pos rfl]
      show amLookup k' ((k0, v) :: rest) = amLookup k' ((k0, v0) :: rest)
      unfold amLookup
      rw [if_neg (fun he => h he.symm), if_neg (fun he => h he.symm)]
    · rw [if_neg h0]
      show amLookup k' ((k0, v0) :: amSet k v rest) = amLookup k' ((k0, v0) :: rest)
      unfold amLookup
      by_cases h1 : k0 = k'
      · rw [if_pos h1, if_pos h1]
      · rw [if_neg h1, if_neg h1]
        exact ih

theorem IdMap_nil : IdMap [] := by
  intro k v h
  exact absurd h (by simp [amLookup])

theorem IdMap_amSet_self {m : List (Str × Str)} (h : IdMap m) (k : Str) :
    IdMap (amSet k k m) := by
  intro a v ha
  by_cases hak : a = k
  · subst hak
    rw [amLookup_amSet_self] at ha
    exact (Option.some.inj ha).symm
  · rw [amLookup_amSet_other _ _ _ _ hak] at ha
    exact h a v ha

theorem updateRef_id {m : List (Str × Str)} (h : IdMap m) (r : StateRel) :
    updateRef m r = r := by
  obtain ⟨s, t, o, b⟩ := r
  unfold updateRef
  cases s with
  | none =>
    dsimp only
    cases o with
    | none => rfl
    | some oId =>
      dsimp only
      cases hl : amLookup oId m with
      | none => rfl
      | some nw =>
        cases h oId nw hl
        rfl
  | some sId =>
    dsimp only
    cases hl : amLookup sId m with
    | none =>
      dsimp only
      cases o with
      | none => rfl
      | some oId =>
        dsimp only
        cases hl2 : amLookup oId m with
        | none => rfl
        | some nw =>
          cases h oId nw hl2
          rfl
    | some nw =>
      cases h sId nw hl
      dsimp only
      cases o with
      | none => rfl
      | some oId =>
        dsimp only
        cases hl2 : amLookup oId m with
        | none => rfl
        | some nw2 =>
          cases h oId nw2 hl2
          rfl

theorem updateRefs_id {m : List (Str × Str)} (h : IdMap m)
    (rels : List StateRel) : updateRefs m rels = rels := by
  unfold updateRefs
  induction rels with
  | nil => rfl
  | cons r rs ih =>
    rw [List.map_cons, updateRef_id h, ih]

theorem not_isEmpty_ne {α : Type} {l : List α} (h : ¬ l.isEmpty = true) :
    l ≠ [] := by
  cases l <;> simp_all

theorem filter_not_mem_nil {l bs : List Str}
    (h : (l.filter fun x => x ∉ bs).isEmpty = true) : ∀ x ∈ l, x ∈ bs := by
  induction l with
  | nil => intro x hx; cases hx
  | cons a l ih =>
    intro x hx
    rw [List.filter_cons] at h
    split at h
    · exact absurd h (by simp)
    · rename_i hpa
      rcases List.mem_cons.1 hx with hx | hx
      · subst hx
        by_contra hxb
        exact hpa (by simpa using hxb)
      · exact ih h x hx

theorem mem_allowed {ty : Str} (h : ty ∈ allowedStateTypes) :
    ty = "独立状态".toList ∨ ty = "联合状态".toList := by
  unfold allowedStateTypes at h
  rcases List.mem_cons.1 h with h | h
  · exact .inl h
  · rcases List.mem_cons.1 h with h | h
    · exact .inr h
    · cases h

/-- The invariant-assembly step: once the pre-`consistency` record `st5`
satisfies the per-field facts, the record `consistencyStep` appends to
`valid_states` satisfies `KeptInv`. -/
theorem KeptInv_mk (baseIds : List Str) (sid t' : Str) (ids5 : List Str)
    (st5 : BStep)
    (hk : st5.s.kind = some "独立状态".toList ∨
      st5.s.kind = some "联合状态".toList)
    (hsid : ∃ x, st5.s.stateId = some x ∧ x ≠ [])
    (hei : st5.s.entityIds = some ids5)
    (hne : ids5 ≠ [])
    (hnodup : ids5.Nodup)
    (hsub : ∀ x ∈ ids5, x ∈ baseIds)
    (htr : st5.s.timeRange = some t')
    (htne : t' ≠ [])
    (hok : (matchTime t').isSome = true ∨ '到' ∉ t')
    (hciX : st5.s.kind = some "独立状态".toList → ids5.length = 1)
    (hcjX : st5.s.kind = some "联合状态".toList → 2 ≤ ids5.length)
    (hshape : st5.s.kind = some "联合状态".toList →
      sortStr ids5 = ids5 ∨
      ∃ X, '-' ∉ X ∧ st5.s.stateId = some (mkJSId (sortStr ids5) X)) :
    KeptInv baseIds (consistencyStep sid st5).s := by
  have hk6 := consistencyStep_s_kind sid st5
  have hei6 := consistencyStep_s_entityIds sid st5
  have htr6 := consistencyStep_s_timeRange sid st5
  refine ⟨?_, ?_, ?_, ?_, ?_, ?_, ?_, ?_, ?_, ?_, ?_, ?_⟩
  · rw [hk6]; exact hk
  · exact consistencyStep_sid_some sid st5 hsid
  · exact ⟨ids5, by rw [hei6, hei], hne⟩
  · rw [hei6, hei, Option.getD_some]; exact hnodup
  · rw [hei6, hei, Option.getD_some]; exact hsub
  · exact ⟨t', by rw [htr6, htr], htne⟩
  · rw [htr6, htr, Option.getD_some]; exact hok
  · intro h6
    rw [hei6, hei, Option.getD_some]
    rw [hk6] at h6
    exact hciX h6
  · intro h6
    rw [hei6, hei, Option.getD_some]
    rw [hk6] at h6
    exact hcjX h6
  · intro h6 d hd
    rw [hk6] at h6
    rw [htr6, htr] at hd
    rw [hei6, hei, Option.getD_some]
    have hcanon := consistencyStep_canon_joint sid st5 h6
      (by rw [hei, Option.getD_some]; exact hcjX h6) d
      (by rw [htr]; exact hd)
    rw [hei, Option.getD_some] at hcanon
    exact hcanon
  · intro h6 d px hd hpx
    rw [hk6] at h6
    rw [htr6, htr] at hd
    rw [hei6, hei, Option.getD_some] at hpx ⊢
    have hcanon := consistencyStep_canon_indep sid st5 h6
      (by rw [hei, Option.getD_some]; exact hciX h6) d px
      (by rw [htr]; exact hd)
      (by rw [hei, Option.getD_some]; exact hpx)
    rw [hei, Option.getD_some] at hcanon
    exact hcanon
  · intro h6
    rw [hk6] at h6
    rw [hei6, hei, Option.getD_some]
    have hpre := hshape h6
    have hres := consistencyStep_jointShape sid st5 h6
      (by rw [hei, Option.getD_some]; exact hpre)
    rw [hei, Option.getD_some] at hres
    exact hres

/-- Each `_validate_state_entities` loop iteration either leaves
`valid_states` unchanged (the record was dropped or raised) or appends one
record satisfying `KeptInv`. -/
theorem processState_kept (baseIds : List Str) (acc : BAcc) (s0 : StateEnt)
    (acc' : BAcc) (h : processState baseIds acc s0 = .ok acc') :
    acc'.valid = acc.valid ∨
      ∃ s6, acc'.valid = acc.valid ++ [s6] ∧ KeptInv baseIds s6 := by
  obtain ⟨k0, si0, ei0, tr0⟩ := s0
  unfold processState at h
  cases k0 with
  | none => left; cases Except.ok.inj h; rfl
  | some ty =>
  cases si0 with
  | none => left; cases Except.ok.inj h; rfl
  | some sid =>
  cases tr0 with
  | none => left; cases Except.ok.inj h; rfl
  | some tm =>
  dsimp only at h
  split at h
  · left; cases Except.ok.inj h; rfl
  · rename_i hfields
    split at h
    · left; cases Except.ok.inj h; rfl
    · rename_i htyal
      obtain ⟨ids0, rfl⟩ : ∃ l, ei0 = some l := by
        cases ei0 with
        | none => exact absurd (Or.inr (Or.inr (Or.inl rfl))) hfields
        | some l => exact ⟨l, rfl⟩
      rw [Option.getD_some] at h hfields
      split at h
      · exact Except.noConfusion h
      · rename_i st3 hc3
        split at h
        · left; cases Except.ok.inj h; rfl
        · rename_i hbad
          right
          cases Except.ok.inj h
          refine ⟨_, rfl, ?_⟩
          have hsid_ne : sid ≠ [] :=
            not_isEmpty_ne (fun hi => hfields (Or.inr (Or.inl hi)))
          have htm_ne : ¬ tm.isEmpty = true :=
            fun hi => hfields (Or.inr (Or.inr (Or.inr hi)))
          have hne0 : ¬ ids0.isEmpty = true :=
            fun hi => hfields (Or.inr (Or.inr (Or.inl hi)))
          have hallow := mem_allowed (not_not.1 htyal)
          have hbads : ∀ x ∈ dedupStep ids0, x ∈ baseIds :=
            filter_not_mem_nil (not_not.1 hbad)
          have hnodup1 : (dedupStep ids0).Nodup := dedupStep_nodup ids0
          have hne1 : dedupStep ids0 ≠ [] :=
            not_isEmpty_ne (dedupStep_ne_nil hne0)
          obtain ⟨t', htr1, htne1, hok1⟩ := timeStep_time_spec sid tm
            ⟨⟨some ty, some sid, some ids0, some tm⟩,
             acc.mapping, acc.rep, acc.lastPfx⟩ rfl htm_ne
          have htne' : t' ≠ [] := not_isEmpty_ne htne1
          have hk2 : (dedupApply sid ids0 (timeStep sid tm
              ⟨⟨some ty, some sid, some ids0, some tm⟩,
               acc.mapping, acc.rep, acc.lastPfx⟩)).s.kind = some ty := by
            rw [dedupApply_s_kind, timeStep_s_kind]
          have hsid2 : (dedupApply sid ids0 (timeStep sid tm
              ⟨⟨some ty, some sid, some ids0, some tm⟩,
               acc.mapping, acc.rep, acc.lastPfx⟩)).s.stateId = some sid := by
            rw [dedupApply_s_stateId, timeStep_s_stateId]
          have hei2 : (dedupApply sid ids0 (timeStep sid tm
              ⟨⟨some ty, some sid, some ids0, some tm⟩,
               acc.mapping, acc.rep, acc.lastPfx⟩)).s.entityIds =
              some (dedupStep ids0) :=
            dedupApply_s_entityIds sid ids0 _ (by rw [timeStep_s_entityIds])
          have htr2 : (dedupApply sid ids0 (timeStep sid tm
              ⟨⟨some ty, some sid, some ids0, some tm⟩,
               acc.mapping, acc.rep, acc.lastPfx⟩)).s.timeRange = some t' :=
            (dedupApply_s_timeRange sid ids0 _).trans htr1
          generalize hg2 : dedupApply sid ids0 (timeStep sid tm
              ⟨⟨some ty, some sid, some ids0, some tm⟩,
               acc.mapping, acc.rep, acc.lastPfx⟩) = st2
            at hk2 hsid2 hei2 htr2 hc3
          generalize hg1 : dedupStep ids0 = ids1
            at hbads hnodup1 hne1 hei2 hc3 ⊢
          have hpos1 : 0 < ids1.length := List.length_pos.2 hne1
          rcases hallow with hty1 | hty1
          · -- 独立状态
            subst hty1
            rw [coerceJointToIndep_no_fire _ _ _ _
              (fun hand => absurd hand.1 (by decide))] at hc3
            rw [show st3 = st2 from (Except.ok.inj hc3).symm]
            by_cases hlen : 1 < ids1.length
            · -- coerced Independent → Joint
              have h4 := coerceIndepToJoint_fire "独立状态".toList sid ids1 st2
                ⟨rfl, hlen⟩
              rw [reorderJointStep_no_fire _ _ _ _
                (fun hand => absurd hand.1 (by decide))]
              exact KeptInv_mk baseIds sid t' ids1
                (coerceIndepToJoint "独立状态".toList sid ids1 st2)
                (.inr h4.1)
                ⟨_, h4.2.1, mkJSId_ne_nil _ _⟩
                (h4.2.2.1.trans hei2) hne1 hnodup1 hbads
                (h4.2.2.2.trans htr2) htne' hok1
                (fun hcon => absurd (h4.1.symm.trans hcon) (by decide))
                (fun _ => by omega)
                (fun _ => .inr ⟨lastComp sid, lastComp_no_dash sid, h4.2.1⟩)
            · -- kept Independent
              have hlen1 : ids1.length = 1 := by omega
              rw [coerceIndepToJoint_no_fire _ _ _ _ (fun hand => hlen hand.2),
                reorderJointStep_no_fire _ _ _ _
                  (fun hand => absurd hand.1 (by decide))]
              exact KeptInv_mk baseIds sid t' ids1 st2
                (.inl hk2)
                ⟨sid, hsid2, hsid_ne⟩
                hei2 hne1 hnodup1 hbads htr2 htne' hok1
                (fun _ => hlen1)
                (fun hcon => absurd (hk2.symm.trans hcon) (by decide))
                (fun hcon => absurd (hk2.symm.trans hcon) (by decide))
          · -- 联合状态
            subst hty1
            by_cases hlen : ids1.length < 2
            · -- coerced Joint → Independent
              rcases coerceJointToIndep_ok _ _ _ _ _ hc3 with
                ⟨hcon, -⟩ | ⟨-, p, hk3, hsid3, hei3, htr3⟩
              · exact absurd ⟨rfl, hlen⟩ hcon
              · have hlen1 : ids1.length = 1 := by omega
                obtain ⟨x, hx⟩ := List.length_eq_one.1 hlen1
                have hsorted : sortStr ids1 = ids1 := by
                  rw [hx]; exact sortStr_singleton x
                rw [coerceIndepToJoint_no_fire _ _ _ _
                  (fun hand => absurd hand.1 (by decide)),
                  reorderJointStep_no_fire _ _ _ _ (fun hand => hand.2 hsorted)]
                exact KeptInv_mk baseIds sid t' ids1 st3
                  (.inl hk3)
                  ⟨_, hsid3, mkIndepId_ne_nil _ _ _⟩
                  (hei3.trans hei2) hne1 hnodup1 hbads
                  (htr3.trans htr2) htne' hok1
                  (fun _ => hlen1)
                  (fun hcon => absurd (hk3.symm.trans hcon) (by decide))
                  (fun hcon => absurd (hk3.symm.trans hcon) (by decide))
            · -- kept Joint
              rcases coerceJointToIndep_ok _ _ _ _ _ hc3 with
                ⟨-, hst3⟩ | ⟨⟨-, hcon⟩, -⟩
              · rw [hst3]
                rw [coerceIndepToJoint_no_fire _ _ _ _
                  (fun hand => absurd hand.1 (by decide))]
                by_cases hsorted : sortStr ids1 = ids1
                · rw [reorderJointStep_no_fire _ _ _ _
                    (fun hand => hand.2 hsorted)]
                  exact KeptInv_mk baseIds sid t' ids1 st2
                    (.inr hk2)
                    ⟨sid, hsid2, hsid_ne⟩
                    hei2 hne1 hnodup1 hbads htr2 htne' hok1
                    (fun hcon => absurd (hk2.symm.trans hcon) (by decide))
                    (fun _ => by omega)
                    (fun _ => .inl hsorted)
                · have h5 := reorderJointStep_fire "联合状态".toList sid ids1 st2
                    ⟨rfl, hsorted⟩
                  have hnes : sortStr ids1 ≠ [] := by
                    intro hnil
                    have hlen0 := sortStr_length ids1
                    rw [hnil] at hlen0
                    exact hne1 (List.length_eq_zero.1 hlen0.symm)
                  exact KeptInv_mk baseIds sid t' (sortStr ids1)
                    (reorderJointStep "联合状态".toList sid ids1 st2)
                    (.inr (h5.1.trans hk2))
                    ⟨_, h5.2.1, mkJSId_ne_nil _ _⟩
                    h5.2.2.1 hnes (sortStr_nodup hnodup1)
                    (fun x hx => hbads x (sortStr_mem.1 hx))
                    (h5.2.2.2.trans htr2) htne' hok1
                    (fun hcon => absurd ((h5.1.trans hk2).symm.trans hcon)
                      (by decide))
                    (fun _ => by rw [sortStr_length]; omega)
                    (fun _ => .inl (sortStr_idem ids1))
              · exact absurd hcon hlen

theorem ne_not_isEmpty {α : Type} {l : List α} (h : l ≠ []) :
    ¬ l.isEmpty = true := by
  cases l <;> simp_all

theorem filter_not_mem_eq_nil {l bs : List Str} (h : ∀ x ∈ l, x ∈ bs) :
    (l.filter fun x => x ∉ bs) = [] := by
  induction l with
  | nil => rfl
  | cons a l ih =>
    rw [List.filter_cons, if_neg (by simp [h a (List.mem_cons_self a l)])]
    exact ih (fun x hx => h x (List.mem_cons_of_mem _ hx))

theorem validateStateId_indep_pfx_none (a : Str) (ids : List Str) (t d : Str)
    (hd : matchTime t = some d) (hpx : pfxOf (ids.headD []) = none) :
    validateStateId a "独立状态".toList ids t = false := by
  unfold validateStateId
  rw [hd]
  show (if "独立状态".toList = "独立状态".toList then
      match pfxOf (ids.headD []) with
      | some p => decide (a = mkIndepId p (ids.headD []) d)
      | none => false
    else if "独立状态".toList = "联合状态".toList then
      decide (a = mkJSId (sortStr ids) d)
    else false) = false
  rw [if_pos rfl, hpx]

theorem reorderJointStep_fire_map (ty sid : Str) (ids1 : List Str) (st : BStep)
    (h : ty = "联合状态".toList ∧ sortStr ids1 ≠ ids1) :
    (reorderJointStep ty sid ids1 st).mapping =
      amSet sid (mkJSId (sortStr ids1) (lastComp sid)) st.mapping ∧
    (reorderJointStep ty sid ids1 st).rep =
      addMod (.reorderJoint sid (mkJSId (sortStr ids1) (lastComp sid))) st.rep := by
  unfold reorderJointStep
  rw [if_pos h]
  exact ⟨rfl, rfl⟩

/-- The kept-branch plumbing of `processState`: when the guards pass, the
coercion returns, and every (deduplicated) entity id exists, the iteration
appends the post-`consistency` record. -/
theorem processState_eq_ok (baseIds : List Str) (acc : BAcc) (ty sid : Str)
    (ids : List Str) (t : Str) (st3 : BStep)
    (h1 : ¬(ty.isEmpty = true ∨ sid.isEmpty = true ∨ ids.isEmpty = true ∨
      t.isEmpty = true))
    (h2 : ty ∈ allowedStateTypes)
    (hc3 : coerceJointToIndep ty sid (dedupStep ids)
      (dedupApply sid ids (timeStep sid t
        ⟨⟨some ty, some sid, some ids, some t⟩,
         acc.mapping, acc.rep, acc.lastPfx⟩)) = .ok st3)
    (hsub : ∀ x ∈ dedupStep ids, x ∈ baseIds)
    (st6 : BStep)
    (hst6 : st6 = consistencyStep sid (reorderJointStep ty sid (dedupStep ids)
      (coerceIndepToJoint ty sid (dedupStep ids) st3))) :
    processState baseIds acc ⟨some ty, some sid, some ids, some t⟩ =
      .ok ⟨acc.valid ++ [st6.s], acc.after ++ [st6.s],
           st6.mapping, st6.rep, st6.lastPfx⟩ := by
  subst hst6
  unfold processState
  dsimp only
  rw [Option.getD_some, if_neg h1, if_neg (not_not_intro h2), hc3]
  dsimp only
  rw [filter_not_mem_eq_nil hsub,
    if_neg (not_not_intro (by decide : (([] : List Str).isEmpty) = true))]

/-- Packaging step for the re-validation argument: once the post-`consistency`
record is identified and its components characterised, the iteration's effect
on the accumulator follows. -/
theorem processState_stable_of_e6 (baseIds : List Str) (acc : BAcc)
    (ty sid : Str) (ids : List Str) (t : Str) (T st6 : BStep)
    (hguard : ¬(ty.isEmpty = true ∨ sid.isEmpty = true ∨ ids.isEmpty = true ∨
      t.isEmpty = true))
    (hallow : ty ∈ allowedStateTypes)
    (hc3 : coerceJointToIndep ty sid (dedupStep ids)
      (dedupApply sid ids (timeStep sid t
        ⟨⟨some ty, some sid, some ids, some t⟩,
         acc.mapping, acc.rep, acc.lastPfx⟩)) = .ok T)
    (hsub : ∀ x ∈ dedupStep ids, x ∈ baseIds)
    (he6 : consistencyStep sid (reorderJointStep ty sid (dedupStep ids)
      (coerceIndepToJoint ty sid (dedupStep ids) T)) = st6)
    (hsid6 : st6.s.stateId = some sid)
    (hmap6 : IdMap st6.mapping)
    (herr6 : st6.rep.errors_deleted = acc.rep.errors_deleted)
    (hmod6 : ∃ extra, st6.rep.warnings_modified =
        acc.rep.warnings_modified ++ extra ∧
      ∀ m ∈ extra, ∃ a b, m = VMsg.reorderJoint a b) :
    ∃ acc', processState baseIds acc ⟨some ty, some sid, some ids, some t⟩ =
        .ok acc' ∧
      (∃ s', acc'.valid = acc.valid ++ [s'] ∧
        s'.stateId = (⟨some ty, some sid, some ids, some t⟩ : StateEnt).stateId) ∧
      IdMap acc'.mapping ∧
      acc'.rep.errors_deleted = acc.rep.errors_deleted ∧
      (∃ extra, acc'.rep.warnings_modified =
          acc.rep.warnings_modified ++ extra ∧
        ∀ m ∈ extra, ∃ a b, m = VMsg.reorderJoint a b) := by
  refine ⟨_, processState_eq_ok baseIds acc ty sid ids t T hguard hallow hc3
    hsub st6 he6.symm, ⟨st6.s, rfl, hsid6⟩, hmap6, herr6, hmod6⟩

/-- Re-validation never drops a `KeptInv` record and never raises: the record
is appended again with the same `state_id`, every rename recorded is an
identity, no deletion error is recorded, and the only corrections recorded
are 原则6 reorderings. -/
theorem processState_stable (baseIds : List Str) (acc : BAcc) (s : StateEnt)
    (hinv : KeptInv baseIds s) (hid : IdMap acc.mapping) :
    ∃ acc', processState baseIds acc s = .ok acc' ∧
      (∃ s', acc'.valid = acc.valid ++ [s'] ∧ s'.stateId = s.stateId) ∧
      IdMap acc'.mapping ∧
      acc'.rep.errors_deleted = acc.rep.errors_deleted ∧
      (∃ extra, acc'.rep.warnings_modified =
          acc.rep.warnings_modified ++ extra ∧
        ∀ m ∈ extra, ∃ a b, m = VMsg.reorderJoint a b) := by
  obtain ⟨k0, si0, ei0, tr0⟩ := s
  obtain ⟨sid, hsid0, hsidne⟩ := hinv.sid_some
  obtain ⟨ids, hids0, hidsne⟩ := hinv.ids_some
  obtain ⟨t, ht0, htne⟩ := hinv.time_some
  have hsi : si0 = some sid := hsid0
  have heiq : ei0 = some ids := hids0
  have htrq : tr0 = some t := ht0
  subst hsi heiq htrq
  have hnodup : ids.Nodup := hinv.ids_nodup
  have hsub0 : ∀ x ∈ ids, x ∈ baseIds := hinv.ids_sub
  have hsub' : ∀ x ∈ dedupStep ids, x ∈ baseIds := by
    rw [dedupStep_eq_of_nodup hnodup]
    exact hsub0
  have hokt : (matchTime t).isSome = true ∨ '到' ∉ t := hinv.time_ok
  rcases hinv.kind_cases with hk | hk
  · -- 独立状态
    have hkq : k0 = some "独立状态".toList := hk
    subst hkq
    have hlen1 : ids.length = 1 := hinv.card_indep rfl
    obtain ⟨T, hTdef⟩ : ∃ T, timeStep sid t
        ⟨⟨some "独立状态".toList, some sid, some ids, some t⟩,
         acc.mapping, acc.rep, acc.lastPfx⟩ = T := ⟨_, rfl⟩
    obtain ⟨hT_s0, hT_err0, hT_mod0, hT_map0, hT_lp0⟩ :=
      timeStep_no_change sid t
        ⟨⟨some "独立状态".toList, some sid, some ids, some t⟩,
         acc.mapping, acc.rep, acc.lastPfx⟩ hokt
    rw [hTdef] at hT_s0 hT_err0 hT_mod0 hT_map0
    have hT_s : T.s = ⟨some "独立状态".toList, some sid, some ids, some t⟩ := hT_s0
    have e4 : coerceIndepToJoint "独立状态".toList sid (dedupStep ids) T = T := by
      rw [dedupStep_eq_of_nodup hnodup]
      exact coerceIndepToJoint_no_fire _ _ _ _
        (fun hand => absurd hand.2 (by omega))
    have e5 : reorderJointStep "独立状态".toList sid (dedupStep ids)
        (coerceIndepToJoint "独立状态".toList sid (dedupStep ids) T) = T := by
      rw [e4]
      exact reorderJointStep_no_fire _ _ _ _
        (fun hand => absurd hand.1 (by decide))
    have hc3 : coerceJointToIndep "独立状态".toList sid (dedupStep ids)
        (dedupApply sid ids (timeStep sid t
          ⟨⟨some "独立状态".toList, some sid, some ids, some t⟩,
           acc.mapping, acc.rep, acc.lastPfx⟩)) = .ok T := by
      rw [hTdef, dedupApply_no_change sid ids T hnodup]
      exact coerceJointToIndep_no_fire _ _ _ _
        (fun hand => absurd hand.1 (by decide))
    have hguard : ¬("独立状态".toList.isEmpty = true ∨ sid.isEmpty = true ∨
        ids.isEmpty = true ∨ t.isEmpty = true) := by
      rintro (hx | hx | hx | hx)
      · exact absurd hx (by decide)
      · exact ne_not_isEmpty hsidne hx
      · exact ne_not_isEmpty hidsne hx
      · exact ne_not_isEmpty htne hx
    have hallow : "独立状态".toList ∈ allowedStateTypes := by decide
    cases hmt : matchTime t with
    | some d =>
      cases hpx : pfxOf (ids.headD []) with
      | some px =>
        have hcanon0 : (some sid : Option Str) =
            some (mkIndepId px (ids.headD []) d) :=
          hinv.canon_indep rfl d px hmt hpx
        have hval : validateStateId (T.s.stateId.getD []) (T.s.kind.getD [])
            ((T.s.entityIds).getD []) (T.s.timeRange.getD []) = true := by
          rw [hT_s]
          exact (validateStateId_indep_iff sid ids t d px hmt hpx).mpr
            (Option.some.inj hcanon0)
        have he6 : consistencyStep sid (reorderJointStep "独立状态".toList sid
            (dedupStep ids) (coerceIndepToJoint "独立状态".toList sid
              (dedupStep ids) T)) = T := by
          rw [e5]
          exact consistencyStep_valid_eq sid T hval
        exact processState_stable_of_e6 baseIds acc _ sid ids t T T hguard
          hallow hc3 hsub' he6 (by rw [hT_s])
          (by rw [hT_map0]; exact hid) hT_err0
          ⟨[], by rw [List.append_nil]; exact hT_mod0, by simp⟩
      | none =>
        have hfalse : validateStateId sid "独立状态".toList ids t = false :=
          validateStateId_indep_pfx_none sid ids t d hmt hpx
        have hval_ne : ¬ validateStateId (T.s.stateId.getD []) (T.s.kind.getD [])
            ((T.s.entityIds).getD []) (T.s.timeRange.getD []) = true := by
          rw [hT_s]
          intro hcon
          have hcon' : validateStateId sid "独立状态".toList ids t = true := hcon
          rw [hfalse] at hcon'
          exact absurd hcon' (by decide)
        have hgen : generateCorrectStateId (T.s.kind.getD [])
            ((T.s.entityIds).getD []) (T.s.timeRange.getD []) = none := by
          rw [hT_s]
          exact generate_indep_pfx_none ids t hlen1 hpx
        have he6 : consistencyStep sid (reorderJointStep "独立状态".toList sid
            (dedupStep ids) (coerceIndepToJoint "独立状态".toList sid
              (dedupStep ids) T)) =
            { T with rep := addStatS (some sid) (addUnmod (.stateIdUnfixable (some sid)) T.rep) } := by
          rw [e5]
          exact consistencyStep_unfix sid T hval_ne hgen
        refine processState_stable_of_e6 baseIds acc _ sid ids t T _ hguard
          hallow hc3 hsub' he6 ?_ ?_ ?_ ?_
        · dsimp only
          rw [hT_s]
        · dsimp only
          rw [hT_map0]
          exact hid
        · dsimp only
          exact hT_err0
        · exact ⟨[], by dsimp only; rw [List.append_nil]; exact hT_mod0, by simp⟩
    | none =>
      have hval_ne : ¬ validateStateId (T.s.stateId.getD []) (T.s.kind.getD [])
          ((T.s.entityIds).getD []) (T.s.timeRange.getD []) = true := by
        rw [hT_s]
        intro hcon
        have hcon' : validateStateId sid "独立状态".toList ids t = true := hcon
        rw [validateStateId_time_none sid _ ids t hmt] at hcon'
        exact absurd hcon' (by decide)
      have hgen : generateCorrectStateId (T.s.kind.getD [])
          ((T.s.entityIds).getD []) (T.s.timeRange.getD []) = none := by
        rw [hT_s]
        exact generate_time_none _ ids t hmt
      have he6 : consistencyStep sid (reorderJointStep "独立状态".toList sid
          (dedupStep ids) (coerceIndepToJoint "独立状态".toList sid
            (dedupStep ids) T)) =
          { T with rep := addStatS (some sid) (addUnmod (.stateIdUnfixable (some sid)) T.rep) } := by
        rw [e5]
        exact consistencyStep_unfix sid T hval_ne hgen
      refine processState_stable_of_e6 baseIds acc _ sid ids t T _ hguard
        hallow hc3 hsub' he6 ?_ ?_ ?_ ?_
      · dsimp only
        rw [hT_s]
      · dsimp only
        rw [hT_map0]
        exact hid
      · dsimp only
        exact hT_err0
      · exact ⟨[], by dsimp only; rw [List.append_nil]; exact hT_mod0, by simp⟩
  · -- 联合状态
    have hkq : k0 = some "联合状态".toList := hk
    subst hkq
    have hlen2 : 2 ≤ ids.length := hinv.card_joint rfl
    obtain ⟨T, hTdef⟩ : ∃ T, timeStep sid t
        ⟨⟨some "联合状态".toList, some sid, some ids, some t⟩,
         acc.mapping, acc.rep, acc.lastPfx⟩ = T := ⟨_, rfl⟩
    obtain ⟨hT_s0, hT_err0, hT_mod0, hT_map0, hT_lp0⟩ :=
      timeStep_no_change sid t
        ⟨⟨some "联合状态".toList, some sid, some ids, some t⟩,
         acc.mapping, acc.rep, acc.lastPfx⟩ hokt
    rw [hTdef] at hT_s0 hT_err0 hT_mod0 hT_map0
    have hT_s : T.s = ⟨some "联合状态".toList, some sid, some ids, some t⟩ := hT_s0
    have e4 : coerceIndepToJoint "联合状态".toList sid (dedupStep ids) T = T := by
      rw [dedupStep_eq_of_nodup hnodup]
      exact coerceIndepToJoint_no_fire _ _ _ _
        (fun hand => absurd hand.1 (by decide))
    have hc3 : coerceJointToIndep "联合状态".toList sid (dedupStep ids)
        (dedupApply sid ids (timeStep sid t
          ⟨⟨some "联合状态".toList, some sid, some ids, some t⟩,
           acc.mapping, acc.rep, acc.lastPfx⟩)) = .ok T := by
      rw [hTdef, dedupApply_no_change sid ids T hnodup,
        dedupStep_eq_of_nodup hnodup]
      exact coerceJointToIndep_no_fire _ _ _ _
        (fun hand => absurd hand.2 (by omega))
    have hguard : ¬("联合状态".toList.isEmpty = true ∨ sid.isEmpty = true ∨
        ids.isEmpty = true ∨ t.isEmpty = true) := by
      rintro (hx | hx | hx | hx)
      · exact absurd hx (by decide)
      · exact ne_not_isEmpty hsidne hx
      · exact ne_not_isEmpty hidsne hx
      · exact ne_not_isEmpty htne hx
    have hallow : "联合状态".toList ∈ allowedStateTypes := by decide
    by_cases hsorted : sortStr ids = ids
    · -- already sorted: the reordering does not fire
      have e5 : reorderJointStep "联合状态".toList sid (dedupStep ids)
          (coerceIndepToJoint "联合状态".toList sid (dedupStep ids) T) = T := by
        rw [e4]
        exact reorderJointStep_no_fire _ _ _ _
          (fun hand => hand.2 (by rw [dedupStep_eq_of_nodup hnodup]; exact hsorted))
      cases hmt : matchTime t with
      | some d =>
        have hcanon : sid = mkJSId (sortStr ids) d :=
          Option.some.inj (hinv.canon_joint rfl d hmt)
        have hval : validateStateId (T.s.stateId.getD []) (T.s.kind.getD [])
            ((T.s.entityIds).getD []) (T.s.timeRange.getD []) = true := by
          rw [hT_s]
          exact (validateStateId_joint_iff sid ids t d hmt).mpr hcanon
        have he6 : consistencyStep sid (reorderJointStep "联合状态".toList sid
            (dedupStep ids) (coerceIndepToJoint "联合状态".toList sid
              (dedupStep ids) T)) = T := by
          rw [e5]
          exact consistencyStep_valid_eq sid T hval
        exact processState_stable_of_e6 baseIds acc _ sid ids t T T hguard
          hallow hc3 hsub' he6 (by rw [hT_s])
          (by rw [hT_map0]; exact hid) hT_err0
          ⟨[], by rw [List.append_nil]; exact hT_mod0, by simp⟩
      | none =>
        have hval_ne : ¬ validateStateId (T.s.stateId.getD []) (T.s.kind.getD [])
            ((T.s.entityIds).getD []) (T.s.timeRange.getD []) = true := by
          rw [hT_s]
          intro hcon
          have hcon' : validateStateId sid "联合状态".toList ids t = true := hcon
          rw [validateStateId_time_none sid _ ids t hmt] at hcon'
          exact absurd hcon' (by decide)
        have hgen : generateCorrectStateId (T.s.kind.getD [])
            ((T.s.entityIds).getD []) (T.s.timeRange.getD []) = none := by
          rw [hT_s]
          exact generate_time_none _ ids t hmt
        have he6 : consistencyStep sid (reorderJointStep "联合状态".toList sid
            (dedupStep ids) (coerceIndepToJoint "联合状态".toList sid
              (dedupStep ids) T)) =
            { T with rep := addStatS (some sid) (addUnmod (.stateIdUnfixable (some sid)) T.rep) } := by
          rw [e5]
          exact consistencyStep_unfix sid T hval_ne hgen
        refine processState_stable_of_e6 baseIds acc _ sid ids t T _ hguard
          hallow hc3 hsub' he6 ?_ ?_ ?_ ?_
        · dsimp only
          rw [hT_s]
        · dsimp only
          rw [hT_map0]
          exact hid
        · dsimp only
          exact hT_err0
        · exact ⟨[], by dsimp only; rw [List.append_nil]; exact hT_mod0, by simp⟩
    · -- unsorted: the reordering fires with an identity rename
      have h5 := reorderJointStep_fire "联合状态".toList sid ids T ⟨rfl, hsorted⟩
      have h5m := reorderJointStep_fire_map "联合状态".toList sid ids T
        ⟨rfl, hsorted⟩
      rcases hinv.joint_shape rfl with hs | ⟨X, hX, hsX⟩
      · exact absurd (show sortStr ids = ids from hs) hsorted
      have hsidX : sid = mkJSId (sortStr ids) X :=
        Option.some.inj (show (some sid : Option Str) = _ from hsX)
      have hlast : lastComp sid = X := by
        rw [hsidX]
        exact lastComp_mkJSId _ _ hX
      have hnewid : mkJSId (sortStr ids) (lastComp sid) = sid := by
        rw [hlast, hsidX]
      have hRsid : (reorderJointStep "联合状态".toList sid ids T).s.stateId =
          some sid := by
        rw [h5.2.1, hnewid]
      have hRkind : (reorderJointStep "联合状态".toList sid ids T).s.kind =
          some "联合状态".toList := by
        rw [h5.1, hT_s]
      have hRtr : (reorderJointStep "联合状态".toList sid ids T).s.timeRange =
          some t := by
        rw [h5.2.2.2, hT_s]
      have hRmap : IdMap (reorderJointStep "联合状态".toList sid ids T).mapping := by
        rw [h5m.1, hnewid]
        exact IdMap_amSet_self (by rw [hT_map0]; exact hid) sid
      have hRerr : (reorderJointStep "联合状态".toList sid ids T).rep.errors_deleted =
          acc.rep.errors_deleted := by
        rw [h5m.2]
        exact hT_err0
      have hRmod : (reorderJointStep "联合状态".toList sid ids T).rep.warnings_modified =
          acc.rep.warnings_modified ++
            [VMsg.reorderJoint sid (mkJSId (sortStr ids) (lastComp sid))] := by
        rw [h5m.2]
        show T.rep.warnings_modified ++ _ = _
        rw [hT_mod0]
      have hmodpkg : ∃ extra,
          (reorderJointStep "联合状态".toList sid ids T).rep.warnings_modified =
            acc.rep.warnings_modified ++ extra ∧
          ∀ m ∈ extra, ∃ a b, m = VMsg.reorderJoint a b := by
        refine ⟨_, hRmod, ?_⟩
        intro m hm
        rw [List.mem_singleton.1 hm]
        exact ⟨_, _, rfl⟩
      cases hmt : matchTime t with
      | some d =>
        have hcanon : sid = mkJSId (sortStr ids) d :=
          Option.some.inj (hinv.canon_joint rfl d hmt)
        have hval : validateStateId
            ((reorderJointStep "联合状态".toList sid ids T).s.stateId.getD [])
            ((reorderJointStep "联合状态".toList sid ids T).s.kind.getD [])
            (((reorderJointStep "联合状态".toList sid ids T).s.entityIds).getD [])
            ((reorderJointStep "联合状态".toList sid ids T).s.timeRange.getD []) = true := by
          rw [hRsid, hRkind, h5.2.2.1, hRtr]
          exact (validateStateId_joint_iff sid (sortStr ids) t d hmt).mpr
            (by rw [sortStr_idem]; exact hcanon)
        have he6 : consistencyStep sid (reorderJointStep "联合状态".toList sid
            (dedupStep ids) (coerceIndepToJoint "联合状态".toList sid
              (dedupStep ids) T)) =
            reorderJointStep "联合状态".toList sid ids T := by
          rw [e4, dedupStep_eq_of_nodup hnodup]
          exact consistencyStep_valid_eq sid _ hval
        exact processState_stable_of_e6 baseIds acc _ sid ids t T _ hguard
          hallow hc3 hsub' he6 hRsid hRmap hRerr hmodpkg
      | none =>
        have hval_ne : ¬ validateStateId
            ((reorderJointStep "联合状态".toList sid ids T).s.stateId.getD [])
            ((reorderJointStep "联合状态".toList sid ids T).s.kind.getD [])
            (((reorderJointStep "联合状态".toList sid ids T).s.entityIds).getD [])
            ((reorderJointStep "联合状态".toList sid ids T).s.timeRange.getD []) = true := by
          rw [hRsid, hRkind, h5.2.2.1, hRtr]
          intro hcon
          have hcon' : validateStateId sid "联合状态".toList (sortStr ids) t = true := hcon
          rw [validateStateId_time_none sid _ (sortStr ids) t hmt] at hcon'
          exact absurd hcon' (by decide)
        have hgen : generateCorrectStateId
            ((reorderJointStep "联合状态".toList sid ids T).s.kind.getD [])
            (((reorderJointStep "联合状态".toList sid ids T).s.entityIds).getD [])
            ((reorderJointStep "联合状态".toList sid ids T).s.timeRange.getD []) = none := by
          rw [hRkind, h5.2.2.1, hRtr]
          exact generate_time_none _ _ t hmt
        have he6 : consistencyStep sid (reorderJointStep "联合状态".toList sid
            (dedupStep ids) (coerceIndepToJoint "联合状态".toList sid
              (dedupStep ids) T)) =
            { reorderJointStep "联合状态".toList sid ids T with
              rep := addStatS (some sid) (addUnmod (.stateIdUnfixable (some sid)) (reorderJointStep "联合状态".toList sid ids T).rep) } := by
          rw [e4, dedupStep_eq_of_nodup hnodup]
          exact consistencyStep_unfix sid _ hval_ne hgen
        refine processState_stable_of_e6 baseIds acc _ sid ids t T _ hguard
          hallow hc3 hsub' he6 ?_ ?_ ?_ ?_
        · dsimp only
          rw [hRsid]
        · dsimp only
          exact hRmap
        · dsimp only
          exact hRerr
        · refine ⟨[VMsg.reorderJoint sid (mkJSId (sortStr ids) (lastComp sid))],
            ?_, ?_⟩
          · dsimp only
            exact hRmod
          · intro m hm
            rw [List.mem_singleton.1 hm]
            exact ⟨_, _, rfl⟩

/-- Lifting `processState_kept` over the loop: every record of the final
`valid_states` satisfies `KeptInv`. -/
theorem stageBFold_kept (baseIds : List Str) :
    ∀ (ss : List StateEnt) (acc acc' : BAcc),
      stageBFold baseIds acc ss = .ok acc' →
      (∀ s ∈ acc.valid, KeptInv baseIds s) →
      ∀ s ∈ acc'.valid, KeptInv baseIds s := by
  intro ss
  induction ss with
  | nil =>
    intro acc acc' h hall
    cases Except.ok.inj h
    exact hall
  | cons s ss ih =>
    intro acc acc' h hall
    unfold stageBFold at h
    split at h
    · exact Except.noConfusion h
    · rename_i acc1 heq
      rcases processState_kept _ _ _ _ heq with hsame | ⟨s6, happ, hinv⟩
      · refine ih acc1 acc' h ?_
        intro x hx
        rw [hsame] at hx
        exact hall x hx
      · refine ih acc1 acc' h ?_
        intro x hx
        rw [happ] at hx
        rcases List.mem_append.1 hx with hx | hx
        · exact hall x hx
        · rw [List.mem_singleton.1 hx]
          exact hinv

/-- Every record in the `valid_states` output of `_validate_state_entities`
satisfies `KeptInv` for Stage A's surviving id set. -/
theorem validateStateEntities_kept (states : List StateEnt)
    (base : List BaseEnt) (rels : List StateRel) (rep : Report)
    (vs as_ : List StateEnt) (mp : List (Str × Str)) (rl : List StateRel)
    (rp : Report)
    (h : validateStateEntities states base rels rep = .ok (vs, as_, mp, rl, rp)) :
    ∀ s ∈ vs, KeptInv (base.map (fun e => e.uid.getD [])) s := by
  unfold validateStateEntities at h
  dsimp only at h
  cases hB : stageBFold (base.map (fun e => e.uid.getD []))
      ⟨[], [], [], rep, none⟩ states with
  | error e => rw [hB] at h; exact absurd h (by simp)
  | ok acc =>
    rw [hB] at h
    dsimp only at h
    simp only [Except.ok.injEq, Prod.mk.injEq] at h
    obtain ⟨hvs, -⟩ := h
    subst hvs
    exact stageBFold_kept _ states _ acc hB (fun x hx => absurd hx (List.not_mem_nil x))

/-- Lifting `processState_stable` over the loop. -/
theorem stageBFold_stable (baseIds : List Str) :
    ∀ (ss : List StateEnt) (acc : BAcc),
      (∀ s ∈ ss, KeptInv baseIds s) → IdMap acc.mapping →
      ∃ acc', stageBFold baseIds acc ss = .ok acc' ∧
        acc'.valid.map (fun s => s.stateId) =
          acc.valid.map (fun s => s.stateId) ++ ss.map (fun s => s.stateId) ∧
        IdMap acc'.mapping ∧
        acc'.rep.errors_deleted = acc.rep.errors_deleted ∧
        (∃ extra, acc'.rep.warnings_modified =
            acc.rep.warnings_modified ++ extra ∧
          ∀ m ∈ extra, ∃ a b, m = VMsg.reorderJoint a b) := by
  intro ss
  induction ss with
  | nil =>
    intro acc hall hid
    exact ⟨acc, rfl, by simp, hid, rfl, ⟨[], by simp, by simp⟩⟩
  | cons s ss ih =>
    intro acc hall hid
    obtain ⟨acc1, hrun, ⟨s', hval', hsid'⟩, hid1, herr1, ⟨e1, hmod1, hre1⟩⟩ :=
      processState_stable baseIds acc s (hall s (List.mem_cons_self s ss)) hid
    obtain ⟨acc', hrun2, hmapeq2, hid', herr2, ⟨e2, hmod2, hre2⟩⟩ :=
      ih acc1 (fun x hx => hall x (List.mem_cons_of_mem s hx)) hid1
    refine ⟨acc', ?_, ?_, hid', herr2.trans herr1, ?_⟩
    · unfold stageBFold
      rw [hrun]
      exact hrun2
    · rw [hmapeq2, hval', List.map_append]
      simp [hsid']
    · refine ⟨e1 ++ e2, ?_, ?_⟩
      · rw [hmod2, hmod1, List.append_assoc]
      · intro m hm
        rcases List.mem_append.1 hm with hm | hm
        · exact hre1 m hm
        · exact hre2 m hm

/-- The two observable outcomes of one `_validate_base_entities` iteration:
either `valid_entities`/`entity_ids` are unchanged, or the record passed all
checks and is appended together with its id. -/
theorem stageABody_cases (v : List BaseEnt) (s : List Str) (r : Report)
    (e : BaseEnt) :
    ((stageABody (v, s, r) e).1 = v ∧ (stageABody (v, s, r) e).2.1 = s) ∨
    (truthyS e.kind = true ∧ truthyS e.uid = true ∧
      baseIdOK (e.kind.getD []) (e.uid.getD []) = true ∧ e.uid.getD [] ∉ s ∧
      (stageABody (v, s, r) e).1 = v ++ [e] ∧
      (stageABody (v, s, r) e).2.1 = s ++ [e.uid.getD []]) := by
  simp only [stageABody]
  by_cases hf : ¬ truthyS e.kind = true ∨ ¬ truthyS e.uid = true
  · rw [if_pos hf]
    left
    exact ⟨rfl, rfl⟩
  · rw [if_neg hf]
    by_cases hvld : ¬ baseIdOK (e.kind.getD []) (e.uid.getD []) = true
    · rw [if_pos hvld]
      left
      exact ⟨rfl, rfl⟩
    · rw [if_neg hvld]
      by_cases hd : e.uid.getD [] ∈ s
      · rw [if_pos hd]
        left
        exact ⟨rfl, rfl⟩
      · rw [if_neg hd]
        right
        exact ⟨not_not.1 (not_or.1 hf).1, not_not.1 (not_or.1 hf).2,
          not_not.1 hvld, hd, rfl, rfl⟩

/-- Stage A soundness: surviving base entities have truthy fields and a
pattern-valid id, and the `entity_ids` list is exactly their (duplicate-free)
id list. -/
theorem stageA_sound :
    ∀ (es : List BaseEnt) (v0 : List BaseEnt) (s0 : List Str) (r0 : Report),
      (∀ e ∈ v0, truthyS e.kind = true ∧ truthyS e.uid = true ∧
        baseIdOK (e.kind.getD []) (e.uid.getD []) = true) →
      s0 = v0.map (fun e => e.uid.getD []) → s0.Nodup →
      (∀ e ∈ (es.foldl stageABody (v0, s0, r0)).1,
        truthyS e.kind = true ∧ truthyS e.uid = true ∧
        baseIdOK (e.kind.getD []) (e.uid.getD []) = true) ∧
      (es.foldl stageABody (v0, s0, r0)).2.1 =
        (es.foldl stageABody (v0, s0, r0)).1.map (fun e => e.uid.getD []) ∧
      (es.foldl stageABody (v0, s0, r0)).2.1.Nodup := by
  intro es
  induction es with
  | nil =>
    intro v0 s0 r0 hv hs hnd
    exact ⟨hv, hs, hnd⟩
  | cons e es ih =>
    intro v0 s0 r0 hv hs hnd
    rw [List.foldl_cons]
    rcases hE : stageABody (v0, s0, r0) e with ⟨a, b, c⟩
    rcases stageABody_cases v0 s0 r0 e with ⟨h1, h2⟩ | ⟨hk, hu, hok, hdup, h1, h2⟩
    · rw [hE] at h1 h2
      dsimp only at h1 h2
      subst h1
      subst h2
      exact ih a b c hv hs hnd
    · rw [hE] at h1 h2
      dsimp only at h1 h2
      subst h1
      subst h2
      refine ih _ _ c ?_ ?_ ?_
      · intro x hx
        rcases List.mem_append.1 hx with hx | hx
        · exact hv x hx
        · rw [List.mem_singleton.1 hx]
          exact ⟨hk, hu, hok⟩
      · rw [hs, List.map_append]
        rfl
      · rw [hs] at hdup hnd ⊢
        exact List.Nodup.append hnd (List.nodup_singleton _)
          (by
            intro x hx hx'
            rw [List.mem_singleton.1 hx'] at hx
            exact hdup hx)

/-- One Stage A iteration on a record that passes all checks. -/
theorem stageABody_keep (v : List BaseEnt) (s : List Str) (r : Report)
    (e : BaseEnt)
    (h1 : truthyS e.kind = true) (h2 : truthyS e.uid = true)
    (h3 : baseIdOK (e.kind.getD []) (e.uid.getD []) = true)
    (h4 : e.uid.getD [] ∉ s) :
    ∃ r', stageABody (v, s, r) e = (v ++ [e], s ++ [e.uid.getD []], r') ∧
      r'.errors_deleted = r.errors_deleted ∧
      r'.warnings_modified = r.warnings_modified := by
  simp only [stageABody]
  rw [if_neg (by rintro (hx | hx); exacts [hx h1, hx h2]),
    if_neg (not_not_intro h3), if_neg h4]
  split
  · exact ⟨_, rfl, rfl, rfl⟩
  · exact ⟨_, rfl, rfl, rfl⟩

/-- Re-running Stage A over its own surviving records keeps all of them,
records no deletions and no corrections. -/
theorem stageA_stable :
    ∀ (es : List BaseEnt) (v0 : List BaseEnt) (s0 : List Str) (r0 : Report),
      (∀ e ∈ es, truthyS e.kind = true ∧ truthyS e.uid = true ∧
        baseIdOK (e.kind.getD []) (e.uid.getD []) = true) →
      (∀ e ∈ es, e.uid.getD [] ∉ s0) →
      (es.map (fun e => e.uid.getD [])).Nodup →
      ∃ r', es.foldl stageABody (v0, s0, r0) =
          (v0 ++ es, s0 ++ es.map (fun e => e.uid.getD []), r') ∧
        r'.errors_deleted = r0.errors_deleted ∧
        r'.warnings_modified = r0.warnings_modified := by
  intro es
  induction es with
  | nil =>
    intro v0 s0 r0 _ _ _
    exact ⟨r0, by simp, rfl, rfl⟩
  | cons e es ih =>
    intro v0 s0 r0 haok hdisj hnd
    rw [List.map_cons, List.nodup_cons] at hnd
    obtain ⟨haok1, haok2, haok3⟩ := haok e (List.mem_cons_self ..)
    obtain ⟨r1, hstep, he1, hm1⟩ := stageABody_keep v0 s0 r0 e haok1 haok2 haok3
      (hdisj e (List.mem_cons_self ..))
    rw [List.foldl_cons, hstep]
    obtain ⟨r', hrest, he2, hm2⟩ := ih (v0 ++ [e]) (s0 ++ [e.uid.getD []]) r1
      (fun x hx => haok x (List.mem_cons_of_mem _ hx))
      (fun x hx hmem => by
        rcases List.mem_append.1 hmem with hmem | hmem
        · exact hdisj x (List.mem_cons_of_mem _ hx) hmem
        · rw [List.mem_singleton] at hmem
          exact hnd.1 (hmem ▸ List.mem_map_of_mem _ hx))
      hnd.2
    refine ⟨r', ?_, he2.trans he1, hm2.trans hm1⟩
    rw [hrest]
    simp [List.append_assoc]

/-- Stage C soundness: surviving relations have truthy `主体状态ID`/`关系`/
`客体状态ID` and both endpoints in the surviving state-id list. -/
theorem stageC_sound (ids : List (Option Str)) :
    ∀ (rels : List StateRel) (acc : List StateRel × Report) (r : StateRel),
      r ∈ (rels.foldl (stageCBody ids) acc).1 →
      r ∈ acc.1 ∨ (truthyS r.subjectId = true ∧ truthyS r.relType = true ∧
        truthyS r.objectId = true ∧ r.subjectId ∈ ids ∧ r.objectId ∈ ids) := by
  intro rels
  induction rels with
  | nil =>
    intro acc r hr
    exact .inl hr
  | cons hd tl ih =>
    intro acc r hr
    rw [List.foldl_cons] at hr
    rcases ih _ r hr with h | h
    · obtain ⟨va, re⟩ := acc
      unfold stageCBody at h
      dsimp only at h
      split at h
      · exact .inl h
      · rename_i hfield
        split at h
        · exact .inl h
        · split at h
          · exact .inl h
          · rcases List.mem_append.1 h with h' | h'
            · exact .inl h'
            · rename_i hsub hobj
              rcases List.mem_singleton.1 h' with rfl
              have hf1 := not_not.1 (not_or.1 hfield).1
              have hf23 := not_or.1 (not_or.1 hfield).2
              exact .inr ⟨hf1, not_not.1 hf23.1, not_not.1 hf23.2,
                not_not.1 hsub, not_not.1 hobj⟩
    · exact .inr h

/-- One Stage C iteration on a relation that passes the drop checks. -/
theorem stageCBody_keep (ids : List (Option Str)) (va : List StateRel)
    (re : Report) (r : StateRel)
    (h1 : truthyS r.subjectId = true) (h2 : truthyS r.relType = true)
    (h3 : truthyS r.objectId = true)
    (h4 : r.subjectId ∈ ids) (h5 : r.objectId ∈ ids) :
    ∃ re', stageCBody ids (va, re) r = (va ++ [r], re') ∧
      re'.errors_deleted = re.errors_deleted ∧
      re'.warnings_modified = re.warnings_modified := by
  simp only [stageCBody]
  rw [if_neg (by rintro (hx | hx | hx); exacts [hx h1, hx h2, hx h3]),
    if_neg (not_not_intro h4), if_neg (not_not_intro h5)]
  split
  · split
    · exact ⟨_, rfl, rfl, rfl⟩
    · exact ⟨_, rfl, rfl, rfl⟩
  · split
    · exact ⟨_, rfl, rfl, rfl⟩
    · exact ⟨_, rfl, rfl, rfl⟩

/-- Re-running Stage C over its own survivors keeps all of them and records
no deletions and no corrections. -/
theorem stageC_stable (ids : List (Option Str)) :
    ∀ (rels : List StateRel) (va : List StateRel) (re : Report),
      (∀ r ∈ rels, truthyS r.subjectId = true ∧ truthyS r.relType = true ∧
        truthyS r.objectId = true ∧ r.subjectId ∈ ids ∧ r.objectId ∈ ids) →
      ∃ re', rels.foldl (stageCBody ids) (va, re) = (va ++ rels, re') ∧
        re'.errors_deleted = re.errors_deleted ∧
        re'.warnings_modified = re.warnings_modified := by
  intro rels
  induction rels with
  | nil =>
    intro va re _
    exact ⟨re, by simp, rfl, rfl⟩
  | cons r rels ih =>
    intro va re hall
    obtain ⟨h1, h2, h3, h4, h5⟩ := hall r (List.mem_cons_self ..)
    obtain ⟨re1, hstep, he1, hm1⟩ := stageCBody_keep ids va re r h1 h2 h3 h4 h5
    rw [List.foldl_cons, hstep]
    obtain ⟨re', hrest, he2, hm2⟩ :=
      ih (va ++ [r]) re1 (fun x hx => hall x (List.mem_cons_of_mem _ hx))
    refine ⟨re', ?_, he2.trans he1, hm2.trans hm1⟩
    rw [hrest]
    simp [List.append_assoc]

/-! ### Scheduler emission-shape lemmas -/

theorem batchGo_length {α : Type} (f : Str → Str → Except Str (Option α × RInfo)) :
    ∀ (g : Nat) (items : List (Str × Nat × Str)),
      (batchGo f g items).length = items.length := by
  intro g items
  induction items generalizing g with
  | nil => rfl
  | cons it rest ih =>
    obtain ⟨dn, ci, ch⟩ := it
    rw [batchGo]
    simp only [List.length_cons]
    rw [ih (g + 1)]

theorem processChunkMeta_chunk_index {α : Type}
    (f : Str → Str → Except Str (Option α × RInfo)) (g : Nat) (dn : Str)
    (ci : Nat) (ch : Str) :
    (processChunkMeta f g dn ci ch).2.chunk_index = some ci := by
  unfold processChunkMeta
  cases hf : f ch dn with
  | ok pr =>
    obtain ⟨j, info⟩ := pr
    rfl
  | error e => rfl

theorem zip_batchGo_chunk_index {α : Type}
    (f : Str → Str → Except Str (Option α × RInfo)) :
    ∀ (buf : List ChunkInfo) (g : Nat),
      ∀ pr ∈ buf.zip (batchGo f g (buf.map fun ci => (ci.name, ci.idx, ci.content))),
        pr.2.2.chunk_index = some pr.1.idx := by
  intro buf
  induction buf with
  | nil =>
    intro g pr hpr
    cases hpr
  | cons ci rest ih =>
    intro g pr hpr
    rw [List.map_cons, batchGo, List.zip_cons_cons] at hpr
    rcases List.mem_cons.1 hpr with hpr | hpr
    · subst hpr
      exact processChunkMeta_chunk_index f g ci.name ci.idx ci.content
    · exact ih (g + 1) pr hpr

theorem amSet_mem {α β : Type} [DecidableEq α] (k : α) (v : β) :
    ∀ (l : List (α × β)) (x : α × β), x ∈ amSet k v l → x = (k, v) ∨ x ∈ l := by
  intro l
  induction l with
  | nil =>
    intro x hx
    exact .inl (List.mem_singleton.1 hx)
  | cons p rest ih =>
    intro x hx
    obtain ⟨k0, v0⟩ := p
    unfold amSet at hx
    split at hx
    · rcases List.mem_cons.1 hx with hx | hx
      · exact .inl hx
      · exact .inr (List.mem_cons_of_mem _ hx)
    · rcases List.mem_cons.1 hx with hx | hx
      · exact .inr (hx ▸ List.mem_cons_self _ _)
      · rcases ih x hx with hx | hx
        · exact .inl hx
        · exact .inr (List.mem_cons_of_mem _ hx)

theorem amSet_keys {α β : Type} [DecidableEq α] (k : α) (v : β) :
    ∀ (l : List (α × β)),
      (amSet k v l).map Prod.fst =
        if k ∈ l.map Prod.fst then l.map Prod.fst else l.map Prod.fst ++ [k] := by
  intro l
  induction l with
  | nil => rfl
  | cons p rest ih =>
    obtain ⟨k0, v0⟩ := p
    unfold amSet
    by_cases h0 : k0 = k
    · subst h0
      rw [if_pos rfl]
      simp
    · rw [if_neg h0, List.map_cons, List.map_cons, ih]
      by_cases hk : k ∈ rest.map Prod.fst
      · rw [if_pos hk, if_pos (by simp [hk])]
      · rw [if_neg hk,
          if_neg (by
            simp only [List.mem_cons]
            rintro (he | he)
            · exact h0 he.symm
            · exact hk he)]
        rfl

theorem amSet_keys_nodup {α β : Type} [DecidableEq α] (k : α) (v : β)
    (l : List (α × β)) (h : (l.map Prod.fst).Nodup) :
    ((amSet k v l).map Prod.fst).Nodup := by
  rw [amSet_keys]
  split
  · exact h
  · rename_i hk
    exact List.Nodup.append h (List.nodup_singleton _)
      (by
        intro x hx hx'
        rw [List.mem_singleton.1 hx'] at hx
        exact hk hx)

theorem pmRecord_pendOK {α : Type} (pth : Str) (idx : Nat) (r : BRes α)
    (hr : r.2.chunk_index = some idx) :
    ∀ (pend : PendMap α), PendOK pend → PendOK (pmRecord pth idx r pend) := by
  intro pend
  induction pend with
  | nil =>
    intro _ pe hpe
    cases hpe
  | cons qe rest ih =>
    intro hok pe hpe
    obtain ⟨q, e⟩ := qe
    unfold pmRecord at hpe
    split at hpe
    · rcases List.mem_cons.1 hpe with hpe | hpe
      · subst hpe
        obtain ⟨hnd, hmeta⟩ := hok (q, e) (List.mem_cons_self ..)
        refine ⟨amSet_keys_nodup idx r e.results hnd, ?_⟩
        intro ir hir
        rcases amSet_mem idx r e.results ir hir with hir | hir
        · rw [hir]
          exact hr
        · exact hmeta ir hir
      · exact hok pe (List.mem_cons_of_mem _ hpe)
    · rcases List.mem_cons.1 hpe with hpe | hpe
      · exact hpe ▸ hok (q, e) (List.mem_cons_self ..)
      · exact ih (fun x hx => hok x (List.mem_cons_of_mem _ hx)) pe hpe

theorem recordAll_pendOK {α : Type} :
    ∀ (pairs : List (ChunkInfo × BRes α)) (pend : PendMap α),
      PendOK pend → (∀ pr ∈ pairs, pr.2.2.chunk_index = some pr.1.idx) →
      PendOK (recordAll pend pairs) := by
  intro pairs
  induction pairs with
  | nil =>
    intro pend hok _
    exact hok
  | cons pr rest ih =>
    intro pend hok hall
    obtain ⟨ci, r⟩ := pr
    rw [recordAll]
    exact ih _ (pmRecord_pendOK ci.path ci.idx r
        (hall (ci, r) (List.mem_cons_self ..)) pend hok)
      (fun x hx => hall x (List.mem_cons_of_mem _ hx))

theorem pmSetComplete_pendOK {α : Type} (pth : Str) :
    ∀ (pend : PendMap α), PendOK pend → PendOK (pmSetComplete pth pend) := by
  intro pend
  induction pend with
  | nil =>
    intro _ pe hpe
    cases hpe
  | cons qe rest ih =>
    intro hok pe hpe
    obtain ⟨q, e⟩ := qe
    unfold pmSetComplete at hpe
    split at hpe
    · rcases List.mem_cons.1 hpe with hpe | hpe
      · subst hpe
        exact hok (q, e) (List.mem_cons_self ..)
      · exact hok pe (List.mem_cons_of_mem _ hpe)
    · rcases List.mem_cons.1 hpe with hpe | hpe
      · exact hpe ▸ hok (q, e) (List.mem_cons_self ..)
      · exact ih (fun x hx => hok x (List.mem_cons_of_mem _ hx)) pe hpe

theorem pmEnsure_pendOK {α : Type} (pth : Str) (pend : PendMap α)
    (hok : PendOK pend) : PendOK (pmEnsure pth pend) := by
  unfold pmEnsure
  split
  · exact hok
  · intro pe hpe
    rcases List.mem_append.1 hpe with hpe | hpe
    · exact hok pe hpe
    · rw [List.mem_singleton.1 hpe]
      exact ⟨List.nodup_nil, fun ir hir => absurd hir (List.not_mem_nil ir)⟩

theorem refill_pendOK {α : Type} (bs : Nat) :
    ∀ (stream : List SItem) (buf : List ChunkInfo) (pend : PendMap α)
      (ems : List (Str × List (BRes α))),
      PendOK pend → PendOK (refill bs stream buf pend ems).pend := by
  intro stream
  induction stream with
  | nil =>
    intro buf pend ems hok
    exact hok
  | cons it rest ih =>
    intro buf pend ems hok
    cases it with
    | docEnd p n err =>
      cases err with
      | none =>
        rw [refill]
        split
        · exact hok
        · exact ih buf _ ems (pmSetComplete_pendOK p pend hok)
      | some e =>
        rw [refill]
        split
        · exact hok
        · exact ih buf pend _ hok
    | chunk p n i c =>
      rw [refill]
      split
      · exact hok
      · exact ih _ _ ems (pmEnsure_pendOK p pend hok)

theorem refill_ems_shape {α : Type} (bs : Nat) :
    ∀ (stream : List SItem) (buf : List ChunkInfo) (pend : PendMap α)
      (ems : List (Str × List (BRes α))),
      ∀ em ∈ (refill bs stream buf pend ems).ems,
        em ∈ ems ∨ ∃ e, em.2 = [mkDocErrorRes (α := α) em.1 e] := by
  intro stream
  induction stream with
  | nil =>
    intro buf pend ems em hem
    exact .inl hem
  | cons it rest ih =>
    intro buf pend ems em hem
    cases it with
    | docEnd p n err =>
      cases err with
      | none =>
        rw [refill] at hem
        split at hem
        · exact .inl hem
        · exact ih buf _ ems em hem
      | some e =>
        rw [refill] at hem
        split at hem
        · exact .inl hem
        · rcases ih buf pend _ em hem with hin | hsh
          · rcases List.mem_append.1 hin with hin | hin
            · exact .inl hin
            · right
              rw [List.mem_singleton.1 hin]
              exact ⟨e, rfl⟩
          · exact .inr hsh
    | chunk p n i c =>
      rw [refill] at hem
      split at hem
      · exact .inl hem
      · exact ih _ _ ems em hem

theorem sortedResults_shape {α : Type} (e : PendEntry α)
    (hnd : (e.results.map Prod.fst).Nodup)
    (hmeta : ∀ ir ∈ e.results, ir.2.2.chunk_index = some ir.1)
    (hne : ¬ e.results.isEmpty = true) :
    sortedResults e ≠ [] ∧ ∃ ks, List.Sorted (· < ·) ks ∧
      (sortedResults e).map (fun r => r.2.chunk_index) = ks.map some := by
  have hperm : List.Perm
      (List.insertionSort (fun a b => a.1 ≤ b.1) e.results) e.results :=
    List.perm_insertionSort _ _
  constructor
  · intro hnil
    unfold sortedResults at hnil
    rw [List.map_eq_nil] at hnil
    have := hperm.length_eq
    rw [hnil] at this
    cases hre : e.results with
    | nil => rw [hre] at hne; exact hne rfl
    | cons x xs => rw [hre] at this; simp at this
  · refine ⟨(List.insertionSort (fun a b => a.1 ≤ b.1) e.results).map Prod.fst,
      ?_, ?_⟩
    · have hsorted : List.Sorted (fun a b => a.1 ≤ b.1)
          (List.insertionSort (fun a b => a.1 ≤ b.1) e.results) :=
        List.sorted_insertionSort _ _
      have hle : List.Sorted (· ≤ ·)
          ((List.insertionSort (fun a b => a.1 ≤ b.1) e.results).map Prod.fst) := by
        rw [List.Sorted, List.pairwise_map]
        exact hsorted
      have hnd' : ((List.insertionSort (fun a b => a.1 ≤ b.1)
          e.results).map Prod.fst).Nodup :=
        ((hperm.map Prod.fst).nodup_iff).2 hnd
      exact hle.lt_of_le hnd'
    · unfold sortedResults
      rw [List.map_map, List.map_map]
      refine List.map_congr_left ?_
      intro ir hir
      exact hmeta ir (hperm.mem_iff.1 hir)

theorem sweep_shape {α : Type} (pend : PendMap α) (hok : PendOK pend) :
    ∀ em ∈ (sweep pend).1, em.2 ≠ [] ∧ ∃ ks, List.Sorted (· < ·) ks ∧
      em.2.map (fun r => r.2.chunk_index) = ks.map some := by
  intro em hem
  unfold sweep at hem
  dsimp only at hem
  rcases List.mem_map.1 hem with ⟨pe, hpe, hpeq⟩
  have hpe' := List.mem_filter.1 hpe
  obtain ⟨hnd, hmeta⟩ := hok pe hpe'.1
  have hemits := hpe'.2
  unfold entryEmits at hemits
  have hand := of_decide_eq_true hemits
  cases hpeq
  exact sortedResults_shape pe.2 hnd hmeta hand.2

theorem sweep_pendOK {α : Type} (pend : PendMap α) (hok : PendOK pend) :
    PendOK (sweep pend).2 := by
  intro pe hpe
  unfold sweep at hpe
  dsimp only at hpe
  exact hok pe (List.mem_filter.1 hpe).1

/-- Every emission of the scheduler loop under the honest batch dispatch is
non-empty and is either a single failed-document result or a chunk-result
list whose `chunk_index` metadata is strictly increasing. -/
theorem schedLoopF_shape {α : Type}
    (f : Str → Str → Except Str (Option α × RInfo)) (bs : Nat) :
    ∀ (fuel : Nat) (stream : List SItem) (pend : PendMap α),
      PendOK pend →
      ∀ em ∈ schedLoopF (mkBatchFn f) bs fuel stream pend,
        em.2 ≠ [] ∧ ((∃ e, em.2 = [mkDocErrorRes (α := α) em.1 e]) ∨
          ∃ ks, List.Sorted (· < ·) ks ∧
            em.2.map (fun r => r.2.chunk_index) = ks.map some) := by
  intro fuel
  induction fuel with
  | zero =>
    intro stream pend _ em hem
    rw [schedLoopF] at hem
    exact absurd hem (List.not_mem_nil em)
  | succ fuel ih =>
    intro stream pend hok em hem
    rw [schedLoopF] at hem
    dsimp only at hem
    have hok1 : PendOK (refill bs stream [] pend []).pend :=
      refill_pendOK bs stream [] pend [] hok
    have hok2 : PendOK (recordAll (refill bs stream [] pend []).pend
        ((refill bs stream [] pend []).buffer.zip
          (batchProcessModel f ((refill bs stream [] pend []).buffer.map
            fun ci => (ci.name, ci.idx, ci.content))))) :=
      recordAll_pendOK _ _ hok1
        (zip_batchGo_chunk_index f (refill bs stream [] pend []).buffer 0)
    split at hem
    · rcases refill_ems_shape bs stream [] pend [] em hem with hin | ⟨e, hsh⟩
      · exact absurd hin (List.not_mem_nil em)
      · exact ⟨by rw [hsh]; simp, .inl ⟨e, hsh⟩⟩
    · simp only [mkBatchFn] at hem
      have hlen : (batchProcessModel f ((refill bs stream [] pend []).buffer.map
          fun ci => (ci.name, ci.idx, ci.content))).length =
          (refill bs stream [] pend []).buffer.length := by
        unfold batchProcessModel
        rw [batchGo_length, List.length_map]
      rw [if_neg (by rw [hlen]; exact Nat.lt_irrefl _)] at hem
      rcases hsw : sweep (recordAll (refill bs stream [] pend []).pend
          ((refill bs stream [] pend []).buffer.zip
            (batchProcessModel f ((refill bs stream [] pend []).buffer.map
              fun ci => (ci.name, ci.idx, ci.content))))) with ⟨ems2, pend3⟩
      rw [hsw] at hem
      dsimp only at hem
      rcases List.mem_append.1 hem with hem | hem
      · rcases List.mem_append.1 hem with hem | hem
        · rcases refill_ems_shape bs stream [] pend [] em hem with hin | ⟨e, hsh⟩
          · exact absurd hin (List.not_mem_nil em)
          · exact ⟨by rw [hsh]; simp, .inl ⟨e, hsh⟩⟩
        · have hems2 : em ∈ (sweep (recordAll (refill bs stream [] pend []).pend
              ((refill bs stream [] pend []).buffer.zip
                (batchProcessModel f ((refill bs stream [] pend []).buffer.map
                  fun ci => (ci.name, ci.idx, ci.content)))))).1 := by
            rw [hsw]
            exact hem
          have hres := sweep_shape _ hok2 em hems2
          exact ⟨hres.1, .inr hres.2⟩
      · have hpend3 : PendOK pend3 := by
          have := sweep_pendOK _ hok2
          rw [hsw] at this
          exact this
        exact ih (refill bs stream [] pend []).rest pend3 hpend3 em hem

/-! ### Claim theorems -/

/-- C1: the spec claims `validate` never raises and catches any unexpected
per-record exception; the code, however, raises an (unmodelled-by-it)
`UnboundLocalError` when a Joint state is coerced to Independent and its
single associated entity id starts with none of `E-`, `L-`, `F-` — evaluated
here on such an input. -/
theorem claim_C1_code_eval : validateData pCrash = .error .unboundLocalNewPfx := rfl

/-- C5: for every payload on which `validate` returns, both endpoint ids of
every surviving StateRelation equal the `state_id` of some surviving
StateEntity (referential integrity of the corrected output). -/
theorem claim_C5 (p out ia : Payload) (rep : Report)
    (h : validateData p = .ok (out, ia, rep)) (rel : StateRel)
    (hrel : rel ∈ out.stateRelations) :
    rel.subjectId ∈ out.stateEntities.map (fun s => s.stateId) ∧
    rel.objectId ∈ out.stateEntities.map (fun s => s.stateId) := by
  unfold validateData at h
  rcases hA : validateBaseEntities p.baseEntities emptyReport with ⟨validBase, rep1⟩
  rw [hA] at h
  dsimp only at h
  cases hB : validateStateEntities p.stateEntities validBase p.stateRelations rep1 with
  | error e => rw [hB] at h; exact absurd h (by simp)
  | ok res =>
    obtain ⟨validStates, afterStates, mapping, rels1, rep2⟩ := res
    rw [hB] at h
    dsimp only at h
    rcases hC : validateStateRelations rels1 validStates rep2 with ⟨validRels, rep3⟩
    rw [hC] at h
    dsimp only at h
    simp only [Except.ok.injEq, Prod.mk.injEq] at h
    obtain ⟨hout, -⟩ := h
    subst hout
    have hfold : (rels1.foldl (stageCBody (validStates.map fun s => s.stateId))
        ([], rep2)).1 = validRels := congrArg Prod.fst hC
    have hm : rel ∈ (rels1.foldl (stageCBody (validStates.map fun s => s.stateId))
        ([], rep2)).1 := by rw [hfold]; exact hrel
    rcases stageC_mem (validStates.map fun s => s.stateId) rels1 ([], rep2) rel hm with
      h' | h'
    · exact absurd h' (List.not_mem_nil _)
    · exact h'

/-- C5 witness: the surviving relation of `pMutate` references the surviving
(renamed) state id. -/
theorem claim_C5_witness :
    ((outOf pMutate).stateRelations.headD ⟨none, none, none, none⟩).subjectId ∈
      (outOf pMutate).stateEntities.map (fun s => s.stateId) :=
  (claim_C5 pMutate (outOf pMutate) (iaOf pMutate)
    ((repOf pMutate).getD emptyReport) rfl _ (by decide)).1

/-- C7: for every input string (and any behaviour of the external
`json.loads` / `json_repair` collaborators), the recovery engine returns
either a structured payload or a tagged failure whose preview is the first at
most 1000 characters of the raw input — it has no other outcome. -/
theorem claim_C7 {J : Type} (loads : Str → Option J) (repair : Str → Str)
    (response : Str) :
    (∃ j, recover loads repair response = .payload j) ∨
    (∃ pv, recover loads repair response = .failure pv response.length ∧
      ∀ p, pv = some p → p.length ≤ 1000 ∧ p = response.take 1000) := by
  unfold recover
  cases h : extractJson loads repair response with
  | some j => exact .inl ⟨j, rfl⟩
  | none =>
    refine .inr ⟨_, rfl, ?_⟩
    intro p hp
    split at hp
    · exact absurd hp (by simp)
    · cases Option.some.injEq .. ▸ hp
      refine ⟨?_, rfl⟩
      calc (response.take 1000).length = min 1000 response.length := List.length_take ..
        _ ≤ 1000 := Nat.min_le_left ..

/-- C10: `validate` copies only the three top-level lists; the record dicts
stay shared, so in-place corrections rewrite the caller's input payload.  On
`pMutate`, after validation the input still holds all its records (nothing
was removed from the caller's lists, base entities untouched) but the state
record's `类型`, `状态ID`, `关联实体ID列表` and `时间` and the relation's
endpoint ids have all been rewritten in place. -/
theorem claim_C10 :
    (iaOf pMutate).baseEntities = pMutate.baseEntities ∧
    (iaOf pMutate).stateEntities.length = pMutate.stateEntities.length ∧
    (iaOf pMutate).stateRelations.length = pMutate.stateRelations.length ∧
    ((iaOf pMutate).stateEntities.map fun s => s.kind) ≠
      (pMutate.stateEntities.map fun s => s.kind) ∧
    ((iaOf pMutate).stateEntities.map fun s => s.stateId) ≠
      (pMutate.stateEntities.map fun s => s.stateId) ∧
    ((iaOf pMutate).stateEntities.map fun s => s.entityIds) ≠
      (pMutate.stateEntities.map fun s => s.entityIds) ∧
    ((iaOf pMutate).stateEntities.map fun s => s.timeRange) ≠
      (pMutate.stateEntities.map fun s => s.timeRange) ∧
    (iaOf pMutate).stateRelations ≠ pMutate.stateRelations := by
  decide

/-- C2 counterexample: on `pCoerce` the corrected output is not a fixed point
— the second `validate` run records a further correction (the Joint-record
reorder), though it drops nothing. -/
theorem claim_C2_counterexample :
    (rerunRep pCoerce).map
      (fun r => (r.warnings_modified.isEmpty, r.errors_deleted.isEmpty)) =
    some (false, true) := rfl

/-- C3 counterexample: the corrected output of `pCoerce` contains exactly one
Joint record and its `entity_ids` list is not sorted (the record entered as
Independent with two ids and was coerced). -/
theorem claim_C3_counterexample :
    ((outOf pCoerce).stateEntities.map fun s =>
      (decide (s.kind = some "联合状态".toList),
       decide (sortStr ((s.entityIds).getD []) = (s.entityIds).getD []))) =
    [(true, false)] := by decide

/-- C4 counterexample: a document with one chunk given batch size 1 is never
emitted at all (its last chunk fills the final batch exactly, so its
end-of-document marker is only consumed by the refill that terminates the
loop) — not "exactly one pair per document". -/
theorem claim_C4_counterexample :
    streamingGen [docOneChunk] (mkBatchFn fTriv) 1 = [] ∧
    docOneChunk.chunking = .ok ["c0".toList] := ⟨rfl, rfl⟩

/-- C6 counterexample: `pDropMap`'s only state record is dropped at the
existence check (no surviving states), yet the rename recorded by the earlier
Independent→Joint coercion of that same record has been applied to the
relation (its `主体状态ID` is no longer `"S1"`). -/
theorem claim_C6_counterexample :
    ((iaOf pDropMap).stateRelations.map fun r =>
      decide (r.subjectId = some "S1".toList)) = [false] ∧
    (outOf pDropMap).stateEntities = [] := by
  exact ⟨rfl, rfl⟩

/-- C9 counterexample: `pGeoWarn`'s single location entity is kept (zero
records dropped) but its missing `地理描述` warning puts its id into
`error_stats`, so the reported base-entity error rate is `1/1`, not
`dropped / original = 0/1`. -/
theorem claim_C9_counterexample :
    (repOf pGeoWarn).map (fun r => r.rateBase) = some (mkRate 1 1) ∧
    pGeoWarn.baseEntities.length = 1 ∧
    (outOf pGeoWarn).baseEntities.length = 1 ∧
    mkRate 1 1 ≠ mkRate (1 - 1) 1 := by
  refine ⟨rfl, rfl, rfl, ?_⟩
  norm_num [mkRate]

/-- C9 amended: each reported per-kind error rate equals the cardinality of
that kind's `error_stats` id set (ids of records that triggered errors or
warnings, kept or dropped) divided by the kind's original record count (0 when
that count is 0), and the condensed summary's success rate is 1 minus the
overall rate. -/
theorem claim_C9_amended (p out ia : Payload) (rep : Report)
    (h : validateData p = .ok (out, ia, rep)) :
    rep.rateBase = mkRate rep.statsBase.length p.baseEntities.length ∧
    rep.rateStates = mkRate rep.statsStates.length p.stateEntities.length ∧
    rep.rateRels = mkRate rep.statsRels.length p.stateRelations.length ∧
    rep.rateTotal =
      mkRate (rep.statsBase.length + rep.statsStates.length + rep.statsRels.length)
        (p.baseEntities.length + p.stateEntities.length + p.stateRelations.length) ∧
    (p.baseEntities.length = 0 → rep.rateBase = 0) ∧
    (getValidationSummary rep).success_rate = 1 - rep.rateTotal := by
  unfold validateData at h
  rcases hA : validateBaseEntities p.baseEntities emptyReport with ⟨validBase, rep1⟩
  rw [hA] at h
  dsimp only at h
  cases hB : validateStateEntities p.stateEntities validBase p.stateRelations rep1 with
  | error e => rw [hB] at h; exact absurd h (by simp)
  | ok res =>
    obtain ⟨validStates, afterStates, mapping, rels1, rep2⟩ := res
    rw [hB] at h
    dsimp only at h
    rcases hC : validateStateRelations rels1 validStates rep2 with ⟨validRels, rep3⟩
    rw [hC] at h
    dsimp only at h
    simp only [Except.ok.injEq, Prod.mk.injEq] at h
    obtain ⟨-, -, hrep⟩ := h
    subst hrep
    refine ⟨rfl, rfl, rfl, rfl, ?_, rfl⟩
    intro h0
    simp only [mkRate, h0]
    norm_num

/-- C9 witness: the amended rate equations instantiated on `pGeoWarn`. -/
theorem claim_C9_witness :
    ((repOf pGeoWarn).getD emptyReport).rateBase =
      mkRate ((repOf pGeoWarn).getD emptyReport).statsBase.length
        pGeoWarn.baseEntities.length ∧
    (getValidationSummary ((repOf pGeoWarn).getD emptyReport)).success_rate =
      1 - ((repOf pGeoWarn).getD emptyReport).rateTotal := by
  have h := claim_C9_amended pGeoWarn (outOf pGeoWarn) (iaOf pGeoWarn)
    ((repOf pGeoWarn).getD emptyReport) rfl
  exact ⟨h.1, h.2.2.2.2.2⟩

/-- C6 amended: a state record that reaches the existence check (fields
present, valid kind) without either cardinality coercion firing and is dropped
there (some associated id not in the surviving base set) records no id
mapping, keeps `valid_states` unchanged, and leaves the loop-local `new_prefix`
alone.  (When a coercion did fire first, its mapping survives the drop — the
original claim fails there, see the counterexample.) -/
theorem claim_C6_amended (baseIds : List Str) (acc : BAcc) (s0 : StateEnt)
    (ty sid tm : Str) (ids : List Str)
    (hk : s0.kind = some ty) (hs : s0.stateId = some sid)
    (ht : s0.timeRange = some tm) (hi : s0.entityIds = some ids)
    (hne : ¬(ty.isEmpty ∨ sid.isEmpty ∨ ids.isEmpty ∨ tm.isEmpty))
    (hallow : ty ∈ allowedStateTypes)
    (hnc1 : ¬(ty = "联合状态".toList ∧ (dedupStep ids).length < 2))
    (hnc2 : ¬(ty = "独立状态".toList ∧ 1 < (dedupStep ids).length))
    (hbad : ¬((dedupStep ids).filter (fun x => x ∉ baseIds)).isEmpty) :
    ∀ acc', processState baseIds acc s0 = .ok acc' →
      acc'.mapping = acc.mapping ∧ acc'.valid = acc.valid ∧
      acc'.lastPfx = acc.lastPfx := by
  intro acc' h
  unfold processState at h
  rw [hk, hs, ht] at h
  dsimp only at h
  rw [hi] at h
  dsimp only [Option.getD_some] at h
  rw [if_neg (by simpa [not_or] using hne)] at h
  rw [if_neg (by simp [hallow])] at h
  rw [coerceJointToIndep_nofire ty sid (dedupStep ids) _ hnc1] at h
  dsimp only at h
  rw [coerceIndepToJoint_nofire ty sid (dedupStep ids) _ hnc2] at h
  rw [if_pos (by simpa using hbad)] at h
  have h2 := Except.ok.inj h
  rw [← h2]
  refine ⟨?_, rfl, ?_⟩
  · show (dedupApply sid ids (timeStep sid tm ⟨s0, acc.mapping, acc.rep, acc.lastPfx⟩)).mapping
      = acc.mapping
    rw [dedupApply_mapping, timeStep_mapping]
  · show (dedupApply sid ids (timeStep sid tm ⟨s0, acc.mapping, acc.rep, acc.lastPfx⟩)).lastPfx
      = acc.lastPfx
    rw [dedupApply_lastPfx, timeStep_lastPfx]

/-- C6 witness: the dropped (uncoerced) record `sNoEnt` leaves the mapping,
`valid_states` and the `new_prefix` binding untouched. -/
theorem claim_C6_witness :
    (processState [] bacc0 sNoEnt).map (fun a => (a.mapping, a.valid, a.lastPfx)) =
      .ok ([], [], none) := by
  have h := claim_C6_amended [] bacc0 sNoEnt "独立状态".toList "S9".toList
    "2023-01-01至2023-01-02".toList ["E-110000-20230101-FLOOD".toList]
    rfl rfl rfl rfl (by decide) (by decide) (by decide) (by decide) (by decide)
  have hiso : (processState [] bacc0 sNoEnt).isOk = true := by decide
  cases hr : processState [] bacc0 sNoEnt with
  | error e => rw [hr] at hiso; exact absurd hiso (by simp [Except.isOk, Except.toBool])
  | ok a' =>
    obtain ⟨hm, hv, hp⟩ := h a' hr
    simp only [Except.map, hm, hv, hp]
    rfl

/-- Index arithmetic for `batch_process`: the result at every batch position
is exactly `_process_chunk_with_metadata` of the item submitted there. -/
theorem batchGo_get {α : Type} (f : Str → Str → Except Str (Option α × RInfo)) :
    ∀ (items : List (Str × Nat × Str)) (g i : Nat),
      (batchGo f g items)[i]? =
        (items[i]?).map fun it => processChunkMeta f (g + i) it.1 it.2.1 it.2.2 := by
  intro items
  induction items with
  | nil => intro g i; simp [batchGo]
  | cons hd tl ih =>
    obtain ⟨dn, ci, ch⟩ := hd
    intro g i
    cases i with
    | zero => simp [batchGo]
    | succ n =>
      simp only [batchGo, List.getElem?_cons_succ]
      have := ih (g + 1) n
      rw [this]
      have harith : g + 1 + n = g + (n + 1) := by omega
      rw [harith]

/-- A per-chunk function that always raises. -/
def fBoom : Str → Str → Except Str (Option Unit × RInfo) :=
  fun _ _ => .error "boom".toList

/-- A batch dispatch that always raises (models an exception in the
scheduler's own batch step). -/
def bFail : List (Str × Nat × Str) → Except Str (List (BRes Unit)) :=
  fun _ => .error "boom".toList

/-- C8: failure isolation.  (a) `batch_process` maps each submitted item to
its own `_process_chunk_with_metadata` result, position by position, so one
chunk's outcome never affects its batch siblings; (b) an exception raised by
the opaque per-chunk function becomes a failed result for exactly that chunk;
(c) an exception raised by the batch step itself makes the loop emit a
failed-document result for every document still pending and terminate (the
loop is a total function). -/
theorem claim_C8 :
    (∀ (α : Type) (f : Str → Str → Except Str (Option α × RInfo))
       (items : List (Str × Nat × Str)) (i : Nat),
       (batchProcessModel f items)[i]? =
         (items[i]?).map fun it => processChunkMeta f i it.1 it.2.1 it.2.2) ∧
    (∀ (α : Type) (f : Str → Str → Except Str (Option α × RInfo))
       (g : Nat) (dn : Str) (ci : Nat) (ch : Str) (e : Str),
       f ch dn = .error e →
       processChunkMeta f g dn ci ch =
         (none, ⟨false, some e, some dn, some ci, some g, none⟩)) ∧
    (∀ (α : Type) (batchFn : List (Str × Nat × Str) → Except Str (List (BRes α)))
       (bs fuel : Nat) (stream : List SItem) (pend : PendMap α) (e : Str),
       ¬ (refill bs stream [] pend []).buffer.isEmpty →
       batchFn ((refill bs stream [] pend []).buffer.map
           fun ci => (ci.name, ci.idx, ci.content)) = .error e →
       schedLoopF batchFn bs (fuel + 1) stream pend =
         (refill bs stream [] pend []).ems ++
           (refill bs stream [] pend []).pend.map fun pe =>
             (pe.1, [mkDocErrorRes pe.1 (crashMsg e)])) := by
  refine ⟨?_, ?_, ?_⟩
  · intro α f items i
    have := batchGo_get f items 0 i
    simpa [batchProcessModel] using this
  · intro α f g dn ci ch e hf
    unfold processChunkMeta
    rw [hf]
  · intro α batchFn bs fuel stream pend e hbuf hbatch
    rw [schedLoopF]
    dsimp only
    rw [if_neg hbuf, hbatch]

/-- C8 witness: the three isolation facts instantiated on concrete inputs
(one-item batch; a per-chunk function that raises; a batch step that
raises over a one-chunk document). -/
theorem claim_C8_witness :
    ((batchProcessModel fTriv [("d".toList, 0, "c".toList)])[0]? =
      ([("d".toList, (0 : Nat), "c".toList)][0]?).map
        fun it => processChunkMeta fTriv 0 it.1 it.2.1 it.2.2) ∧
    (processChunkMeta fBoom 0 "d".toList 0 "c".toList =
      (none, ⟨false, some "boom".toList, some "d".toList, some 0, some 0, none⟩)) ∧
    (schedLoopF bFail 1 1
        [SItem.chunk "p".toList "p".toList 0 "c".toList,
         SItem.docEnd "p".toList "p".toList none] [] =
      (refill (α := Unit) 1 [SItem.chunk "p".toList "p".toList 0 "c".toList,
         SItem.docEnd "p".toList "p".toList none] [] [] []).ems ++
        (refill (α := Unit) 1 [SItem.chunk "p".toList "p".toList 0 "c".toList,
           SItem.docEnd "p".toList "p".toList none] [] [] []).pend.map
          fun pe => (pe.1, [mkDocErrorRes pe.1 (crashMsg "boom".toList)])) :=
  ⟨claim_C8.1 Unit fTriv _ 0,
   claim_C8.2.1 Unit fBoom 0 _ 0 _ _ rfl,
   claim_C8.2.2 Unit bFail 1 0 _ [] _ (by decide) rfl⟩

/-- C3 (amended): every Joint (`联合状态`) StateEntity record in `validate`'s
corrected output whose `时间` matches the date-range format has `state_id`
equal to the canonical `JS-`-id recomputed from its **sorted** entity ids and
the date part — but the stored `entity_ids` themselves need not be sorted
(see the counterexample), and nothing is claimed when `时间` does not parse. -/
theorem claim_C3_amended (p out ia : Payload) (rep : Report)
    (h : validateData p = .ok (out, ia, rep)) (s : StateEnt)
    (hs : s ∈ out.stateEntities) (hk : s.kind = some "联合状态".toList)
    (d : Str) (hd : matchTime ((s.timeRange).getD []) = some d) :
    s.stateId = some (mkJSId (sortStr ((s.entityIds).getD [])) d) := by
  unfold validateData at h
  rcases hA : validateBaseEntities p.baseEntities emptyReport with ⟨validBase, rep1⟩
  rw [hA] at h
  dsimp only at h
  cases hB : validateStateEntities p.stateEntities validBase p.stateRelations rep1 with
  | error e => rw [hB] at h; exact absurd h (by simp)
  | ok res =>
    obtain ⟨validStates, afterStates, mapping, rels1, rep2⟩ := res
    rw [hB] at h
    dsimp only at h
    rcases hC : validateStateRelations rels1 validStates rep2 with ⟨validRels, rep3⟩
    rw [hC] at h
    dsimp only at h
    simp only [Except.ok.injEq, Prod.mk.injEq] at h
    obtain ⟨hout, -⟩ := h
    subst hout
    have hinv := validateStateEntities_kept p.stateEntities validBase
      p.stateRelations rep1 validStates afterStates mapping rels1 rep2 hB s hs
    exact hinv.canon_joint hk d hd

/-- C2 (amended): re-running `validate` on its own corrected output yields
zero further drops (`errors_deleted` stays empty), and every correction the
second run records is a 原则6 entity-id reordering of a Joint record.  (The
second run need not be a no-op — the counterexample exhibits such a reorder
correction — so the original fixed-point claim fails, but nothing is ever
dropped.) -/
theorem claim_C2_amended (p out ia : Payload) (rep : Report)
    (h : validateData p = .ok (out, ia, rep)) :
    ∃ out2 ia2 rep2, validateData out = .ok (out2, ia2, rep2) ∧
      rep2.errors_deleted = [] ∧
      ∀ m ∈ rep2.warnings_modified, ∃ a b, m = VMsg.reorderJoint a b := by
  unfold validateData at h
  rcases hA : validateBaseEntities p.baseEntities emptyReport with ⟨validBase, rep1⟩
  rw [hA] at h
  dsimp only at h
  cases hB : validateStateEntities p.stateEntities validBase p.stateRelations rep1 with
  | error e => rw [hB] at h; exact absurd h (by simp)
  | ok res =>
  obtain ⟨validStates, afterStates, mapping, rels1, rep2⟩ := res
  rw [hB] at h
  dsimp only at h
  rcases hC : validateStateRelations rels1 validStates rep2 with ⟨validRels, rep3⟩
  rw [hC] at h
  dsimp only at h
  simp only [Except.ok.injEq, Prod.mk.injEq] at h
  obtain ⟨hout, -⟩ := h
  subst hout
  -- Stage A soundness for the first run
  have hAfold := stageA_sound p.baseEntities [] [] emptyReport
    (fun e he => absurd he (List.not_mem_nil e)) (by simp) List.nodup_nil
  have hA' : ((p.baseEntities.foldl stageABody ([], [], emptyReport)).1,
      (p.baseEntities.foldl stageABody ([], [], emptyReport)).2.2) =
      (validBase, rep1) := hA
  have hA1 : (p.baseEntities.foldl stageABody ([], [], emptyReport)).1 =
      validBase := congrArg Prod.fst hA'
  have hAOK : ∀ e ∈ validBase, truthyS e.kind = true ∧ truthyS e.uid = true ∧
      baseIdOK (e.kind.getD []) (e.uid.getD []) = true := by
    rw [← hA1]
    exact hAfold.1
  have hseen : (p.baseEntities.foldl stageABody ([], [], emptyReport)).2.1 =
      validBase.map (fun e => e.uid.getD []) := by
    rw [← hA1]
    exact hAfold.2.1
  have hnodupA : (validBase.map (fun e => e.uid.getD [])).Nodup := by
    rw [← hseen]
    exact hAfold.2.2
  -- Stage B soundness (kept-record invariant) for the first run
  have hKept : ∀ s ∈ validStates,
      KeptInv (validBase.map (fun e => e.uid.getD [])) s :=
    validateStateEntities_kept p.stateEntities validBase p.stateRelations rep1
      validStates afterStates mapping rels1 rep2 hB
  -- Stage C soundness for the first run
  have hC2 : rels1.foldl (stageCBody (validStates.map fun s => s.stateId))
      ([], rep2) = (validRels, rep3) := hC
  have hRfacts : ∀ r ∈ validRels, truthyS r.subjectId = true ∧
      truthyS r.relType = true ∧ truthyS r.objectId = true ∧
      r.subjectId ∈ validStates.map (fun s => s.stateId) ∧
      r.objectId ∈ validStates.map (fun s => s.stateId) := by
    intro r hr
    have hr' : r ∈ (rels1.foldl (stageCBody
        (validStates.map fun s => s.stateId)) ([], rep2)).1 := by
      rw [hC2]
      exact hr
    rcases stageC_sound _ rels1 ([], rep2) r hr' with h' | h'
    · exact absurd h' (List.not_mem_nil r)
    · exact h'
  -- Second run, Stage A
  obtain ⟨r1', hfoldA, hAerr, hAmod⟩ := stageA_stable validBase [] [] emptyReport
    hAOK (fun e _ hmem => absurd hmem (List.not_mem_nil _)) hnodupA
  have hA2 : validateBaseEntities validBase emptyReport = (validBase, r1') := by
    show ((validBase.foldl stageABody ([], [], emptyReport)).1,
      (validBase.foldl stageABody ([], [], emptyReport)).2.2) = (validBase, r1')
    rw [hfoldA]
    rfl
  -- Second run, Stage B
  obtain ⟨accB, hfoldB, hmapeqB, hidB, herrB, ⟨extraB, hmodB, hreB⟩⟩ :=
    stageBFold_stable (validBase.map (fun e => e.uid.getD [])) validStates
      ⟨[], [], [], r1', none⟩ hKept IdMap_nil
  have hrelseq : (if ¬ accB.mapping.isEmpty = true
      then updateRefs accB.mapping validRels else validRels) = validRels := by
    split
    · exact updateRefs_id hidB validRels
    · rfl
  have hB2 : validateStateEntities validStates validBase validRels r1' =
      .ok (accB.valid, accB.after, accB.mapping, validRels, accB.rep) := by
    unfold validateStateEntities
    dsimp only
    rw [hfoldB]
    dsimp only
    rw [hrelseq]
  -- Second run, Stage C
  have hidseq : accB.valid.map (fun s => s.stateId) =
      validStates.map (fun s => s.stateId) := by
    rw [hmapeqB]
    rfl
  obtain ⟨r3', hfoldC, hCerr, hCmod⟩ := stageC_stable
    (accB.valid.map (fun s => s.stateId)) validRels [] accB.rep
    (by
      intro r hr
      obtain ⟨f1, f2, f3, f4, f5⟩ := hRfacts r hr
      rw [hidseq]
      exact ⟨f1, f2, f3, f4, f5⟩)
  have hC2' : validateStateRelations validRels accB.valid accB.rep =
      (validRels, r3') := by
    show validRels.foldl (stageCBody (accB.valid.map fun s => s.stateId))
      ([], accB.rep) = (validRels, r3')
    rw [hfoldC]
    rfl
  -- Assemble the second run
  have hrun2 : validateData ⟨validBase, validStates, validRels⟩ =
      .ok (⟨validBase, accB.valid, validRels⟩,
           ⟨validBase, accB.after, validRels⟩,
           { r3' with
             countBase := r3'.statsBase.length
             countStates := r3'.statsStates.length
             countRels := r3'.statsRels.length
             countTotal := r3'.statsBase.length + r3'.statsStates.length +
               r3'.statsRels.length
             rateBase := mkRate r3'.statsBase.length validBase.length
             rateStates := mkRate r3'.statsStates.length validStates.length
             rateRels := mkRate r3'.statsRels.length validRels.length
             rateTotal := mkRate (r3'.statsBase.length +
               r3'.statsStates.length + r3'.statsRels.length)
               (validBase.length + validStates.length + validRels.length)
             totalEntities := validBase.length
             totalStates := validStates.length
             totalRelations := validRels.length }) := by
    unfold validateData
    dsimp only
    rw [hA2]
    dsimp only
    rw [hB2]
    dsimp only
    rw [hC2']
  refine ⟨_, _, _, hrun2, hCerr.trans (herrB.trans hAerr), ?_⟩
  intro m hm
  have hm' : m ∈ r3'.warnings_modified := hm
  rw [hCmod, hmodB] at hm'
  have hm'' : m ∈ r1'.warnings_modified ++ extraB := hm'
  rcases List.mem_append.1 hm'' with hx | hx
  · rw [hAmod] at hx
    exact absurd hx (List.not_mem_nil m)
  · exact hreB m hx

/-- C2 witness: the second run on `pCoerce`'s corrected output returns with
no deletions and only reorder corrections. -/
theorem claim_C2_witness :
    ∃ out2 ia2 rep2, validateData (outOf pCoerce) = .ok (out2, ia2, rep2) ∧
      rep2.errors_deleted = [] ∧
      ∀ m ∈ rep2.warnings_modified, ∃ a b, m = VMsg.reorderJoint a b :=
  claim_C2_amended pCoerce (outOf pCoerce) (iaOf pCoerce)
    ((repOf pCoerce).getD emptyReport) rfl

/-- C3 witness: the canonical-id equation instantiated on the Joint record
that `pCoerce`'s validation outputs. -/
theorem claim_C3_witness :
    ((outOf pCoerce).stateEntities.headD ⟨none, none, none, none⟩).stateId =
      some (mkJSId
        (sortStr (((outOf pCoerce).stateEntities.headD
          ⟨none, none, none, none⟩).entityIds.getD []))
        "20230101_20230102".toList) :=
  claim_C3_amended pCoerce (outOf pCoerce) (iaOf pCoerce)
    ((repOf pCoerce).getD emptyReport) rfl _ (by decide) (by decide) _ (by decide)

/-- C4 (amended): under the honest batch dispatch, every pair the streaming
scheduler emits is non-empty and is either a single failed-document result or
a list of chunk results whose `chunk_index` metadata is strictly increasing —
the ascending-order half of the claim; the exactly-one-pair-per-document half
fails (zero-chunk documents and final-batch-aligned documents are never
emitted, see the counterexample). -/
theorem claim_C4_amended {α : Type} (docs : List DocSpec)
    (f : Str → Str → Except Str (Option α × RInfo)) (bs : Nat) :
    ∀ em ∈ streamingGen docs (mkBatchFn f) bs,
      em.2 ≠ [] ∧ ((∃ e, em.2 = [mkDocErrorRes (α := α) em.1 e]) ∨
        ∃ ks, List.Sorted (· < ·) ks ∧
          em.2.map (fun r => r.2.chunk_index) = ks.map some) := by
  intro em hem
  unfold streamingGen schedLoop at hem
  exact schedLoopF_shape f bs _ _ []
    (fun pe hpe => absurd hpe (List.not_mem_nil pe)) em hem

/-- C4 witness: the emission shape at the single emission of a one-chunk
document run. -/
theorem claim_C4_witness :
    ((streamingGen [docOneChunk] (mkBatchFn fTriv) 8).headD ([], [])).2 ≠ [] ∧
      ((∃ e, ((streamingGen [docOneChunk] (mkBatchFn fTriv) 8).headD
          ([], [])).2 = [mkDocErrorRes (α := Unit)
            ((streamingGen [docOneChunk] (mkBatchFn fTriv) 8).headD
              ([], [])).1 e]) ∨
        ∃ ks, List.Sorted (· < ·) ks ∧
          ((streamingGen [docOneChunk] (mkBatchFn fTriv) 8).headD
            ([], [])).2.map (fun r => r.2.chunk_index) = ks.map some) :=
  claim_C4_amended [docOneChunk] fTriv 8 _ (by decide)

end LLMJson
